import Mathlib

/-!
Shallow embedding of the bootloader volume / partition / filesystem layer
(`volume_read` and its one-block cache, GPT/MBR partition parsing, the
FAT12/16/32 open path, ISO9660 name decoding and multi-extent reads, and the
path canonicalizer), together with theorems checking the natural-language
specification against it.

Machine integers are modelled as `Nat` with explicit `2^64` overflow checks
exactly where the C source checks them (`__builtin_mul_overflow` /
`__builtin_add_overflow`); byte buffers are `Nat → Nat` functions or
`List Nat`; fallible code returns explicit result types.
-/

namespace ShadowSpec

def U64 : Nat := 2 ^ 64

/-- The sentinel `(uint64_t)-1` marking a volume of unknown size. -/
def UNKNOWN_SIZE : Nat := U64 - 1

/-- Outcome of one `disk_read_sectors` call.  Per the external contract the
primitive reports success or `DISK_NO_MEDIA`; any other (transient) error code
makes the caller retry with a smaller transfer size. -/
inductive DiskStatus
  | success
  | noMedia
  | transient
deriving DecidableEq

/-- The physical device: `data` gives the byte stored at an absolute byte
offset, `status` gives the outcome of a `disk_read_sectors` call for a given
(sector, transfer-size) pair.  Reads are deterministic. -/
structure Disk where
  data : Nat → Nat
  status : Nat → Nat → DiskStatus

/-- `struct volume`, restricted to the fields the claims are about.  `cache`,
`cached_block` and `cache_status` live in a separate `CacheState` so theorems
can quantify over cache states; identifier fields (`guid`, `fslabel`) set by
`fs_get_guid`/`fs_get_label` are not modelled (they do not affect any claim). -/
structure Volume where
  pxe : Bool
  sector_size : Nat
  fastest_xfer_size : Nat
  first_sect : Nat
  sect_count : Nat
  index : Nat
  is_optical : Bool
  partition : Nat
deriving DecidableEq

/-- The mutable one-block cache of a volume (`volume->cache_status`,
`volume->cached_block`, `volume->cache`).  The buffer is a total byte
function; the C code's lazily allocated buffer starts with arbitrary
contents, which the theorems quantify over. -/
structure CacheState where
  cache_status : Bool
  cached_block : Nat
  cache : Nat → Nat

/-- Result of an operation that threads the cache state: `fatal` models a
`panic()` (or a loop that cannot make progress), `err` a `false`/failure
return, `ok` a success carrying the delivered value. -/
inductive VRes (α : Type)
  | fatal
  | err (s : CacheState)
  | ok (v : α) (s : CacheState)

/-- The observable value of a `VRes`, forgetting the cache state. -/
def VRes.val {α : Type} : VRes α → Option α
  | .ok v _ => some v
  | _ => none

/-- `true` exactly for `VRes.fatal`, i.e. when the modelled C would panic or
fail to make progress. -/
def VRes.isFatal {α : Type} : VRes α → Bool
  | .fatal => true
  | _ => false

/-- The retry loop inside `cache_block`: try `disk_read_sectors` with
transfer size `xfer`, retrying with `xfer - 1` on a transient error, failing
on `DISK_NO_MEDIA` or when the size reaches 0.  On success the cache holds
the `xfer * sector_size` bytes read at the given sector, and keeps its old
contents beyond them. -/
def disk_try_read (d : Disk) (v : Volume) (oldCache : Nat → Nat)
    (read_sector : Nat) : Nat → Option (Nat → Nat)
  | 0 => none
  | xfer+1 =>
    match d.status read_sector (xfer+1) with
    | .noMedia => none
    | .success => some (fun i =>
        if i < (xfer+1) * v.sector_size then
          d.data (read_sector * v.sector_size + i)
        else oldCache i)
    | .transient => disk_try_read d v oldCache read_sector xfer

/-- `cache_block` from the volume layer: a warm hit returns immediately;
otherwise the cache is invalidated, the partition alignment is checked, the
sector offset computation is overflow-checked, and the retry loop runs. -/
def cache_block (d : Disk) (v : Volume) (S : CacheState) (block : Nat) :
    Bool × CacheState :=
  if S.cache_status = true ∧ block = S.cached_block then (true, S)
  else
    let S0 : CacheState := { S with cache_status := false }
    if v.first_sect % (v.sector_size / 512) ≠ 0 then (false, S0)
    else
      let first := v.first_sect / (v.sector_size / 512)
      if U64 ≤ block * v.fastest_xfer_size then (false, S0)
      else if U64 ≤ first + block * v.fastest_xfer_size then (false, S0)
      else
        match disk_try_read d v S0.cache (first + block * v.fastest_xfer_size)
            v.fastest_xfer_size with
        | none => (false, S0)
        | some c => (true, { cache_status := true, cached_block := block, cache := c })

/-- The copy loop of `volume_read`: while bytes remain, cache the block
containing the current position and copy the in-block chunk out of the cache.
`fuel` bounds the iteration count; callers pass `count`, which suffices
because every iteration delivers at least one byte whenever the block size is
positive.  A zero block size (where the C loop would spin forever) yields
`fatal`. -/
def volume_read_loop (d : Disk) (v : Volume) :
    Nat → CacheState → Nat → Nat → VRes (List Nat)
  | _, S, _, 0 => .ok [] S
  | 0, _, _, _+1 => .fatal
  | fuel+1, S, pos, r+1 =>
    let bs := v.fastest_xfer_size * v.sector_size
    match cache_block d v S (pos / bs) with
    | (false, S1) => .err S1
    | (true, S1) =>
      let offset := pos % bs
      let chunk := min (r+1) (bs - offset)
      if chunk = 0 then .fatal
      else
        let bytes := (List.range chunk).map (fun i => S1.cache (offset + i))
        match volume_read_loop d v fuel S1 (pos + chunk) (r + 1 - chunk) with
        | .ok rest S2 => .ok (bytes ++ rest) S2
        | e => e

/-- `volume_read(volume, buf, loc, count)`: panics on a PXE volume; for a
volume of known size rejects a range reaching past `sect_count × sector_size`
(with the multiplication overflow-checked); then runs the block-copy loop.
The delivered value is the list of bytes copied into `buf`. -/
def volume_read (d : Disk) (v : Volume) (S : CacheState) (loc count : Nat) :
    VRes (List Nat) :=
  if v.pxe = true then .fatal
  else if v.sect_count ≠ UNKNOWN_SIZE then
    if U64 ≤ v.sect_count * v.sector_size then .err S
    else if v.sect_count * v.sector_size ≤ loc ∨
        v.sect_count * v.sector_size - loc < count then .err S
    else volume_read_loop d v count S loc count
  else volume_read_loop d v count S loc count

/-- `count` successive 1-byte `volume_read` calls starting at `loc`,
threading the cache state; delivers the concatenation of the bytes read. -/
def byte_reads (d : Disk) (v : Volume) : CacheState → Nat → Nat → VRes (List Nat)
  | S, _, 0 => .ok [] S
  | S, loc, n+1 =>
    match volume_read d v S loc 1 with
    | .ok b S1 =>
      match byte_reads d v S1 (loc+1) n with
      | .ok rest S2 => .ok (b ++ rest) S2
      | e => e
    | e => e

/-- `fastest_xfer_size × sector_size`, the cached block size in bytes. -/
def block_size (v : Volume) : Nat := v.fastest_xfer_size * v.sector_size

/-- The device sector at which cached block `b` of volume `v` starts. -/
def block_sector (v : Volume) (b : Nat) : Nat :=
  v.first_sect / (v.sector_size / 512) + b * v.fastest_xfer_size

/-- Whether the retry loop starting at transfer size `xfer` reaches a
successful read for sector `s`. -/
def retry_ok (d : Disk) (s : Nat) : Nat → Bool
  | 0 => false
  | x+1 =>
    match d.status s (x+1) with
    | .noMedia => false
    | .success => true
    | .transient => retry_ok d s x

/-- Whether block `b` of volume `v` can be brought into the cache: the
overflow checks pass and the retry loop succeeds. -/
def block_ok (d : Disk) (v : Volume) (b : Nat) : Bool :=
  decide (b * v.fastest_xfer_size < U64) &&
  decide (v.first_sect / (v.sector_size / 512) + b * v.fastest_xfer_size < U64) &&
  retry_ok d (block_sector v b) v.fastest_xfer_size

/-- The partition-alignment check of `cache_block`. -/
def aligned (v : Volume) : Bool :=
  decide (v.first_sect % (v.sector_size / 512) = 0)

/-- The bytes a cacheless reader would deliver for `[loc, loc+count)`: byte
`i` lives at device byte offset `first_sect × 512 + loc + i`. -/
def pure_bytes (d : Disk) (v : Volume) (loc count : Nat) : List Nat :=
  (List.range count).map (fun i => d.data (v.first_sect * 512 + loc + i))

/-- Every byte of `[pos, pos+r)` lies in a fetchable block. -/
def bytes_ok (d : Disk) (v : Volume) (pos r : Nat) : Bool :=
  (List.range r).all (fun i => block_ok d v ((pos + i) / block_size v))

/-- Modelled from the spec: the cacheless byte-wise reference reader.  It
performs the same known-size range check as `volume_read`, fails on a
misaligned partition or an unfetchable block, and otherwise delivers the
bytes straight from the device with no cache involved. -/
def ref_read_core (d : Disk) (v : Volume) (loc count : Nat) : Option (List Nat) :=
  if count = 0 then some []
  else if aligned v = false then none
  else if bytes_ok d v loc count = false then none
  else some (pure_bytes d v loc count)

/-- Modelled from the spec: full cacheless reference reader, including the
known-size range rejection. -/
def ref_read (d : Disk) (v : Volume) (loc count : Nat) : Option (List Nat) :=
  if v.sect_count ≠ UNKNOWN_SIZE then
    if U64 ≤ v.sect_count * v.sector_size then none
    else if v.sect_count * v.sector_size ≤ loc ∨
        v.sect_count * v.sector_size - loc < count then none
    else ref_read_core d v loc count
  else ref_read_core d v loc count

/-- A cache state is coherent when, if it claims to be ready, the cached
block is genuinely fetchable on an aligned volume and the buffer holds
exactly that block's device bytes.  These are the states `cache_block`
itself can produce on a disk that serves full-size transfers. -/
def coherent (d : Disk) (v : Volume) (S : CacheState) : Prop :=
  S.cache_status = true →
    aligned v = true ∧ block_ok d v S.cached_block = true ∧
    ∀ i, i < block_size v →
      S.cache i = d.data (block_sector v S.cached_block * v.sector_size + i)

/-- The disk never answers a full-size transfer with a transient error (it
either succeeds or reports missing media), so the retry loop never degrades
the transfer size and the cache always holds a full block after a fetch. -/
def nondegrading (d : Disk) (v : Volume) : Prop :=
  ∀ s, d.status s v.fastest_xfer_size ≠ DiskStatus.transient

/-- Sector sizes the data model allows. -/
def sector_size_ok (v : Volume) : Prop :=
  v.sector_size = 512 ∨ v.sector_size = 4096

/-! ## Byte-list helpers for parsing packed little-endian structures -/

/-- Byte `i` of a byte list (0 beyond the end, matching a zero-initialised
C struct that a too-short read leaves partially filled). -/
def lget (l : List Nat) (i : Nat) : Nat := l.getD i 0

/-- Little-endian 16-bit field at offset `i`. -/
def le16 (l : List Nat) (i : Nat) : Nat := lget l i + 256 * lget l (i+1)

/-- Little-endian 32-bit field at offset `i`. -/
def le32 (l : List Nat) (i : Nat) : Nat := le16 l i + 65536 * le16 l (i+2)

/-- Little-endian 64-bit field at offset `i`. -/
def le64 (l : List Nat) (i : Nat) : Nat := le32 l i + 4294967296 * le32 l (i+4)

/-- The `n` bytes starting at offset `off`. -/
def lslice (l : List Nat) (off n : Nat) : List Nat :=
  (List.range n).map (fun k => lget l (off + k))

/-- Case analysis combinator on `VRes`, used to write the C call-and-check
sequences; keeping it a plain function (rather than an inline `match`) lets
the proofs rewrite with its equations. -/
def vcase {α β : Type} (r : VRes α) (hf : β) (he : CacheState → β)
    (ho : α → CacheState → β) : β :=
  match r with
  | .fatal => hf
  | .err s => he s
  | .ok b s => ho b s

@[simp] theorem vcase_fatal {α β : Type} (hf : β) (he : CacheState → β)
    (ho : α → CacheState → β) : vcase .fatal hf he ho = hf := rfl

@[simp] theorem vcase_err {α β : Type} (s : CacheState) (hf : β)
    (he : CacheState → β) (ho : α → CacheState → β) :
    vcase (.err s) hf he ho = he s := rfl

@[simp] theorem vcase_ok {α β : Type} (b : α) (s : CacheState) (hf : β)
    (he : CacheState → β) (ho : α → CacheState → β) :
    vcase (.ok b s) hf he ho = ho b s := rfl

/-- Case analysis combinator on `Option`. -/
def ocase {α β : Type} (r : Option α) (hn : β) (hs : α → β) : β :=
  match r with
  | none => hn
  | some x => hs x

@[simp] theorem ocase_none {α β : Type} (hn : β) (hs : α → β) :
    ocase none hn hs = hn := rfl

@[simp] theorem ocase_some {α β : Type} (x : α) (hn : β) (hs : α → β) :
    ocase (some x) hn hs = hs x := rfl

/-- Sequencing of the `is_valid_mbr` probes: stop on panic or on a failed
probe, continue in the threaded state otherwise. -/
def pchain (r : Option (Bool × CacheState))
    (k : CacheState → Option (Bool × CacheState)) :
    Option (Bool × CacheState) :=
  ocase r none (fun fS => if fS.1 then k fS.2 else some (false, fS.2))

@[simp] theorem pchain_none (k : CacheState → Option (Bool × CacheState)) :
    pchain none k = none := rfl

@[simp] theorem pchain_false (S : CacheState)
    (k : CacheState → Option (Bool × CacheState)) :
    pchain (some (false, S)) k = some (false, S) := rfl

@[simp] theorem pchain_true (S : CacheState)
    (k : CacheState → Option (Bool × CacheState)) :
    pchain (some (true, S)) k = k S := rfl

/-! ## GPT and MBR partition table parsing (`part.s2.c`) -/

/-- Return codes of the partition scanners (`enum` in `lib/part.h`);
`okPart` carries the produced child volume. -/
inductive PartR
  | okPart (child : Volume)
  | noPartition
  | endOfTable
  | invalidTable
deriving DecidableEq

/-- The fields of `struct gpt_table_header` the code consumes. -/
structure GptHeader where
  signature : List Nat
  revision : Nat
  partition_entry_lba : Nat
  number_of_partition_entries : Nat
  size_of_partition_entry : Nat
deriving DecidableEq

/-- Parse a `struct gpt_table_header` from its first 92 bytes. -/
def parse_gpt_header (b : List Nat) : GptHeader :=
  { signature := lslice b 0 8
    revision := le32 b 8
    partition_entry_lba := le64 b 72
    number_of_partition_entries := le32 b 80
    size_of_partition_entry := le32 b 84 }

/-- The byte values of the ASCII signature `EFI PART`. -/
def gptSignature : List Nat := [69, 70, 73, 32, 80, 65, 82, 84]

/-- The fields of `struct gpt_entry` the code consumes. -/
structure GptEntry where
  unique_partition_guid : List Nat
  starting_lba : Nat
  ending_lba : Nat
deriving DecidableEq

/-- Parse a `struct gpt_entry` from its 128 bytes. -/
def parse_gpt_entry (b : List Nat) : GptEntry :=
  { unique_partition_guid := lslice b 16 16
    starting_lba := le64 b 32
    ending_lba := le64 b 40 }

/-- The all-zero GUID (16 zero bytes). -/
def zero_guid : List Nat := List.replicate 16 0

/-- The second iteration of the header-probing loop shared by
`gpt_get_guid` and `gpt_get_part`: read 92 bytes at offset 4096 and check
the `EFI PART` signature. -/
def gpt_header_4096 (d : Disk) (v : Volume) (S1 : CacheState) :
    Option (Option (GptHeader × Nat) × CacheState) :=
  vcase (volume_read d v S1 4096 92) none
    (fun S2 => some (none, S2))
    (fun b2 S2 =>
      if (parse_gpt_header b2).signature = gptSignature then
        some (some (parse_gpt_header b2, 4096), S2)
      else some (none, S2))

/-- The header-probing loop: try logical block sizes 512 then 4096; for
each, read 92 bytes at offset `lb_size` and check the `EFI PART`
signature.  Returns the parsed header and the logical block size, or `none`
in the first component when neither guess works; the outer `none` models a
panic. -/
def gpt_read_header (d : Disk) (v : Volume) (S : CacheState) :
    Option (Option (GptHeader × Nat) × CacheState) :=
  vcase (volume_read d v S 512 92) none
    (fun S1 => gpt_header_4096 d v S1)
    (fun b S1 =>
      if (parse_gpt_header b).signature = gptSignature then
        some (some (parse_gpt_header b, 512), S1)
      else gpt_header_4096 d v S1)

/-- The checks and child construction `gpt_get_part` performs once the
partition entry bytes are in hand (zero-GUID and geometry validation, the
overflow-checked LBA-to-512-unit conversions, and the field projection from
the parent volume). -/
def gpt_entry_to_part (v : Volume) (lb_size : Nat) (partition : Nat)
    (e : GptEntry) : PartR :=
  if e.unique_partition_guid = zero_guid then .noPartition
  else if e.ending_lba < e.starting_lba then .noPartition
  else if U64 ≤ e.starting_lba * (lb_size / 512) then .noPartition
  else if e.ending_lba - e.starting_lba = U64 - 1 then .noPartition
  else if U64 ≤ (e.ending_lba - e.starting_lba + 1) * (lb_size / 512) then .noPartition
  else
    .okPart
      { pxe := false
        sector_size := v.sector_size
        fastest_xfer_size := v.fastest_xfer_size
        first_sect := e.starting_lba * (lb_size / 512)
        sect_count := (e.ending_lba - e.starting_lba + 1) * (lb_size / 512)
        index := v.index
        is_optical := v.is_optical
        partition := partition + 1 }

/-- GPT partition-entry GUID payload of a child volume.  `gpt_get_part`
also records `part_guid = entry.unique_partition_guid`; the embedding keeps
it beside the result since `Volume` holds only the claims' core fields. -/
def gpt_part_guid (e : GptEntry) : List Nat := e.unique_partition_guid

/-- `gpt_get_part(ret, volume, partition)`.  `none` models a panic inside a
`volume_read`; the `fs_get_guid` / `fs_get_label` probes on the child only
fill identifier fields and are not modelled. -/
def gpt_get_part (d : Disk) (v : Volume) (S : CacheState) (partition : Nat) :
    Option (PartR × CacheState) :=
  ocase (gpt_read_header d v S) none (fun qS =>
    ocase qS.1 (some (.invalidTable, qS.2)) (fun hl =>
      if hl.1.revision ≠ 0x00010000 then some (.invalidTable, qS.2)
      else if hl.1.number_of_partition_entries ≤ partition then
        some (.endOfTable, qS.2)
      else if hl.1.size_of_partition_entry < 128 then some (.invalidTable, qS.2)
      else if U64 ≤ hl.1.partition_entry_lba * hl.2 then
        some (.invalidTable, qS.2)
      else if U64 ≤ hl.1.partition_entry_lba * hl.2 +
          partition * hl.1.size_of_partition_entry then
        some (.invalidTable, qS.2)
      else
        vcase (volume_read d v qS.2
            (hl.1.partition_entry_lba * hl.2 +
              partition * hl.1.size_of_partition_entry) 128)
          none
          (fun S2 => some (.endOfTable, S2))
          (fun b S2 =>
            some (gpt_entry_to_part v hl.2 partition (parse_gpt_entry b), S2))))

/-- The fields of `struct mbr_entry` (16 packed bytes). -/
structure MbrEntry where
  entry_type : Nat
  fsect : Nat
  scount : Nat
deriving DecidableEq

/-- Parse a `struct mbr_entry`: `status` at 0, `type` at 4, `first_sect`
(32-bit) at 8, `sect_count` (32-bit) at 12. -/
def parse_mbr_entry (b : List Nat) : MbrEntry :=
  { entry_type := lget b 4
    fsect := le32 b 8
    scount := le32 b 12 }

/-- One hint-byte probe of `is_valid_mbr`: read one byte at `off` and require
it to be `0x00` or `0x80`.  Returns `none` on panic. -/
def mbr_status_probe (d : Disk) (v : Volume) (S : CacheState) (off : Nat) :
    Option (Bool × CacheState) :=
  vcase (volume_read d v S off 1) none
    (fun S1 => some (false, S1))
    (fun b S1 =>
      if lget b 0 ≠ 0x00 ∧ lget b 0 ≠ 0x80 then some (false, S1)
      else some (true, S1))

/-- One signature probe of `is_valid_mbr`: read `n` bytes at `off` and fail
(the volume is a bare filesystem, not an MBR) when they equal `sig`. -/
def mbr_sig_probe (d : Disk) (v : Volume) (S : CacheState) (off n : Nat)
    (sig : List Nat) : Option (Bool × CacheState) :=
  vcase (volume_read d v S off n) none
    (fun S1 => some (false, S1))
    (fun b S1 => if b = sig then some (false, S1) else some (true, S1))

/-- ASCII bytes of `NTFS`. -/
def sigNTFS : List Nat := [78, 84, 70, 83]
/-- ASCII bytes of `FAT`. -/
def sigFAT : List Nat := [70, 65, 84]
/-- ASCII bytes of `FAT32`. -/
def sigFAT32 : List Nat := [70, 65, 84, 51, 50]

/-- `is_valid_mbr`: the four primary status bytes must look like boot flags
and the volume must not carry a recognisable whole-disk filesystem
signature (NTFS / FAT / FAT32 / ext magic). -/
def is_valid_mbr (d : Disk) (v : Volume) (S : CacheState) :
    Option (Bool × CacheState) :=
  pchain (mbr_status_probe d v S 446) (fun S1 =>
  pchain (mbr_status_probe d v S1 462) (fun S2 =>
  pchain (mbr_status_probe d v S2 478) (fun S3 =>
  pchain (mbr_status_probe d v S3 494) (fun S4 =>
  pchain (mbr_sig_probe d v S4 3 4 sigNTFS) (fun S5 =>
  pchain (mbr_sig_probe d v S5 54 3 sigFAT) (fun S6 =>
  pchain (mbr_sig_probe d v S6 82 3 sigFAT) (fun S7 =>
  pchain (mbr_sig_probe d v S7 3 5 sigFAT32) (fun S8 =>
  vcase (volume_read d v S8 1080 2) none
    (fun S9 => some (false, S9))
    (fun b S9 =>
      if le16 b 0 = 0xef53 then some (false, S9) else some (true, S9))))))))))

/-- The EBR chain walk of `mbr_get_logical_part`: follow `steps` chain links
starting from `ebr_sector`, validating each link (type `0x05`/`0x0F`,
non-zero and strictly increasing after the first step, inside the extended
partition).  Returns the final EBR sector, `some none` for the early
`END_OF_TABLE` exits, `none` for a panic. -/
def ebr_walk (d : Disk) (ext : Volume) :
    CacheState → Nat → Nat → Bool → Nat → Option (Option (Nat × CacheState))
  | Sx, ebr, _prev, _isFirst, 0 => some (some (ebr, Sx))
  | Sx, ebr, _prev, isFirst, steps+1 =>
    vcase (volume_read d ext Sx (ebr * 512 + 0x1ce) 16) none
      (fun _ => some none)
      (fun b Sy =>
        if (parse_mbr_entry b).entry_type ≠ 0x0f ∧
            (parse_mbr_entry b).entry_type ≠ 0x05 then some none
        else if (parse_mbr_entry b).fsect = 0 ∨
            (isFirst = false ∧ (parse_mbr_entry b).fsect ≤ ebr) then some none
        else if ext.sect_count ≤ (parse_mbr_entry b).fsect then some none
        else ebr_walk d ext Sy (parse_mbr_entry b).fsect ebr false steps)

/-- `mbr_get_logical_part(ret, extended_part, partition)`. -/
def mbr_get_logical_part (d : Disk) (ext : Volume) (Sx : CacheState)
    (partition : Nat) : Option (PartR × CacheState) :=
  if 256 ≤ partition then some (.endOfTable, Sx)
  else
    ocase (ebr_walk d ext Sx 0 0 true partition) none (fun w =>
      ocase w (some (.endOfTable, Sx)) (fun eS =>
        vcase (volume_read d ext eS.2 (eS.1 * 512 + 0x1be) 16) none
          (fun Sz => some (.endOfTable, Sz))
          (fun b Sz =>
            if (parse_mbr_entry b).entry_type = 0 then some (.noPartition, Sz)
            else if (parse_mbr_entry b).scount = 0 then some (.noPartition, Sz)
            else if U64 ≤ ext.first_sect + eS.1 then some (.noPartition, Sz)
            else if U64 ≤ ext.first_sect + eS.1 + (parse_mbr_entry b).fsect then
              some (.noPartition, Sz)
            else if U64 ≤ ext.first_sect + eS.1 + (parse_mbr_entry b).fsect +
                (parse_mbr_entry b).scount then some (.noPartition, Sz)
            else
              some (.okPart
                { pxe := false
                  sector_size := ext.sector_size
                  fastest_xfer_size := ext.fastest_xfer_size
                  first_sect := ext.first_sect + eS.1 + (parse_mbr_entry b).fsect
                  sect_count := (parse_mbr_entry b).scount
                  index := ext.index
                  is_optical := ext.is_optical
                  partition := partition + 4 + 1 }, Sz))))

/-- The scan over the four primary entries looking for the first extended
partition (`mbr_get_part`, `partition > 3` path).  `i` counts entries already
inspected, `left` the entries still to inspect. -/
def mbr_find_extended (d : Disk) (v : Volume) (partition : Nat) :
    CacheState → Nat → Nat → Option (PartR × CacheState)
  | S, _, 0 => some (.endOfTable, S)
  | S, i, left+1 =>
    vcase (volume_read d v S (0x1be + 16 * i) 16) none
      (fun S1 => mbr_find_extended d v partition S1 (i+1) left)
      (fun b S1 =>
        if (parse_mbr_entry b).entry_type ≠ 0x0f ∧
            (parse_mbr_entry b).entry_type ≠ 0x05 then
          mbr_find_extended d v partition S1 (i+1) left
        else if (parse_mbr_entry b).scount = 0 then
          mbr_find_extended d v partition S1 (i+1) left
        else
          ocase (mbr_get_logical_part d
            { pxe := false
              sector_size := v.sector_size
              fastest_xfer_size := v.fastest_xfer_size
              first_sect := (parse_mbr_entry b).fsect
              sect_count := (parse_mbr_entry b).scount
              index := v.index
              is_optical := v.is_optical
              partition := i + 1 }
            { cache_status := false, cached_block := 0, cache := fun _ => 0 }
            (partition - 4)) none (fun rS => some (rS.1, S1)))

/-- `mbr_get_part(ret, volume, partition)`. -/
def mbr_get_part (d : Disk) (v : Volume) (S : CacheState) (partition : Nat) :
    Option (PartR × CacheState) :=
  ocase (is_valid_mbr d v S) none (fun fS =>
    if fS.1 then
      (if 3 < partition then mbr_find_extended d v partition fS.2 0 4
       else
        vcase (volume_read d v fS.2 (0x1be + 16 * partition) 16) none
          (fun S2 => some (.endOfTable, S2))
          (fun b S2 =>
            if (parse_mbr_entry b).entry_type = 0 then some (.noPartition, S2)
            else if (parse_mbr_entry b).scount = 0 then some (.noPartition, S2)
            else
              some (.okPart
                { pxe := false
                  sector_size := v.sector_size
                  fastest_xfer_size := v.fastest_xfer_size
                  first_sect := (parse_mbr_entry b).fsect
                  sect_count := (parse_mbr_entry b).scount
                  index := v.index
                  is_optical := v.is_optical
                  partition := partition + 1 }, S2)))
    else some (.invalidTable, fS.2))

/-- `part_get(part, volume, partition)`: reject a negative index, try GPT,
fall back to MBR when the GPT table is invalid. -/
def part_get (d : Disk) (v : Volume) (S : CacheState) (partition : Int) :
    Option (PartR × CacheState) :=
  if partition < 0 then some (.noPartition, S)
  else
    ocase (gpt_get_part d v S partition.toNat) none (fun rS =>
      if rS.1 = PartR.invalidTable then mbr_get_part d v rS.2 partition.toNat
      else some rS)

/-! ## FAT12/16/32 (`fat32.c`) -/

/-- `struct fat32_context`.  `fstype` is the C `type` field (12, 16 or 32);
the label is the trimmed volume-label bytes when one was found. -/
structure Fat32Context where
  part : Volume
  fstype : Nat
  bytes_per_sector : Nat
  sectors_per_cluster : Nat
  reserved_sectors : Nat
  number_of_fats : Nat
  hidden_sectors : Nat
  sectors_per_fat : Nat
  fat_start_lba : Nat
  data_start_lba : Nat
  root_directory_cluster : Nat
  root_entries : Nat
  root_start : Nat
  root_size : Nat
  label : Option (List Nat)
deriving DecidableEq

/-- `read_cluster_from_map`: bounds-checked FAT lookup.  FAT12 packs 12-bit
values (two bytes at `cluster + cluster/2`, low or high nibble-shifted);
FAT16/32 are natural word reads; FAT32 masks off the 4 reserved top bits. -/
def read_cluster_from_map (d : Disk) (c : Fat32Context) (S : CacheState)
    (cluster : Nat) : VRes Nat :=
  let fat_base := c.fat_start_lba * c.bytes_per_sector
  let fat_size := c.sectors_per_fat * c.bytes_per_sector
  if c.fstype = 12 then
    let offset := cluster + cluster / 2
    if fat_size < offset + 2 then .err S
    else
      match volume_read d c.part S (fat_base + offset) 2 with
      | .fatal => .fatal
      | .err S1 => .err S1
      | .ok b S1 =>
        let tmp := le16 b 0
        if cluster % 2 = 0 then .ok (tmp % 4096) S1 else .ok (tmp / 16) S1
  else if c.fstype = 16 then
    let offset := cluster * 2
    if fat_size < offset + 2 then .err S
    else
      match volume_read d c.part S (fat_base + offset) 2 with
      | .fatal => .fatal
      | .err S1 => .err S1
      | .ok b S1 => .ok (le16 b 0) S1
  else
    let offset := cluster * 4
    if fat_size < offset + 4 then .err S
    else
      match volume_read d c.part S (fat_base + offset) 4 with
      | .fatal => .fatal
      | .err S1 => .err S1
      | .ok b S1 => .ok (le32 b 0 % 0x10000000) S1

/-- The per-type end-of-chain threshold of `cache_cluster_chain`. -/
def cluster_limit (c : Fat32Context) : Nat :=
  (if c.fstype = 12 then 0xfef else 0) |||
  (if c.fstype = 16 then 0xffef else 0) |||
  (if c.fstype = 32 then 0xfffffef else 0)

/-- `FAT32_MAX_CHAIN_LENGTH`: 64 MiB of chain data / 4 bytes per entry. -/
def FAT32_MAX_CHAIN_LENGTH : Nat := 64 * 1024 * 1024 / 4

/-- The measuring loop of `cache_cluster_chain`: starting from a chain of
length `len` ending at `cluster`, follow FAT links until a marker value
(`< 2` or above `limit`).  `fuel` is the number of links the C loop may
still follow (`max_clusters - len + 1`); exhausting it models the
`chain_length > max_clusters` overrun, reported as corruption. -/
def chain_count_loop (d : Disk) (c : Fat32Context) (limit : Nat) :
    Nat → CacheState → Nat → Nat → VRes Nat
  | 0, S, _, _ => .err S
  | fuel+1, S, cluster, len =>
    match read_cluster_from_map d c S cluster with
    | .fatal => .fatal
    | .err S1 => .err S1
    | .ok next S1 =>
      if next < 2 ∨ limit < next then .ok len S1
      else chain_count_loop d c limit fuel S1 next (len+1)

/-- The collection loop of `cache_cluster_chain`: record `n` chain members
starting at `cluster`, re-reading the FAT for each successor. -/
def chain_build_loop (d : Disk) (c : Fat32Context) :
    Nat → CacheState → Nat → List Nat → VRes (List Nat)
  | 0, S, _, acc => .ok acc S
  | n+1, S, cluster, acc =>
    match read_cluster_from_map d c S cluster with
    | .fatal => .fatal
    | .err S1 => .err S1
    | .ok next S1 => chain_build_loop d c n S1 next (acc ++ [cluster])

/-- `cache_cluster_chain(context, initial_cluster, out_len)`: reject marker
initial clusters, measure the chain under the `min(limit - 1, 16 Mi)` cap,
then collect it into a flat array.  `err` models the `NULL` return. -/
def cache_cluster_chain (d : Disk) (c : Fat32Context) (S : CacheState)
    (initial_cluster : Nat) : VRes (List Nat) :=
  let limit := cluster_limit c
  if initial_cluster < 2 ∨ limit < initial_cluster then .err S
  else
    let max_clusters := min (limit - 1) FAT32_MAX_CHAIN_LENGTH
    match chain_count_loop d c limit max_clusters S initial_cluster 1 with
    | .fatal => .fatal
    | .err S1 => .err S1
    | .ok len S1 =>
      if U64 ≤ len * 4 then .err S1
      else chain_build_loop d c len S1 initial_cluster []

/-- `read_cluster_chain(context, chain, chain_len, buf, loc, count)`:
byte-granular read over a cached chain; each touched block indexes the
chain, is validated (`in bounds`, `cluster ≥ 2`), and is read from the data
region through `volume_read`.  `fuel` is passed as `count` by callers. -/
def read_cluster_chain (d : Disk) (c : Fat32Context) (chain : List Nat) :
    Nat → CacheState → Nat → Nat → VRes (List Nat)
  | _, S, _, 0 => .ok [] S
  | 0, _, _, _+1 => .fatal
  | fuel+1, S, pos, r+1 =>
    let bs := c.sectors_per_cluster * c.bytes_per_sector
    let block := pos / bs
    if chain.length ≤ block then .err S
    else
      let cluster := lget chain block
      if cluster < 2 then .err S
      else
        let offset := pos % bs
        let chunk := min (r+1) (bs - offset)
        if chunk = 0 then .fatal
        else
          let base := (c.data_start_lba + (cluster - 2) * c.sectors_per_cluster) *
            c.bytes_per_sector
          match volume_read d c.part S (base + offset) chunk with
          | .fatal => .fatal
          | .err S1 => .err S1
          | .ok bytes S1 =>
            match read_cluster_chain d c chain fuel S1 (pos + chunk) (r + 1 - chunk) with
            | .ok rest S2 => .ok (bytes ++ rest) S2
            | e => e

/-- ASCII upper-casing, as C `toupper` on the bytes the claims use. -/
def to_upper (b : Nat) : Nat := if 97 ≤ b ∧ b ≤ 122 then b - 32 else b

/-- ASCII lower-casing, as C `tolower`. -/
def to_lower (b : Nat) : Nat := if 65 ≤ b ∧ b ≤ 90 then b + 32 else b

/-- The bytes of a C string buffer up to its terminator. -/
def c_str (l : List Nat) : List Nat := l.takeWhile (fun b => b ≠ 0)

/-- C `strcmp(a, b) == 0` on byte buffers. -/
def strcmp_eq (a b : List Nat) : Bool := decide (c_str a = c_str b)

/-- C `strcasecmp(a, b) == 0` on byte buffers. -/
def strcasecmp_eq (a b : List Nat) : Bool :=
  decide ((c_str a).map to_lower = (c_str b).map to_lower)

/-- `fat32_lfncpy(dest, dest_size, dest_offset, src, size)`: copy `size` low
bytes of UCS-2 pairs into the fixed 261-byte name buffer, stopping at its
end.  `List.set` ignores out-of-range indices exactly as the bounds check
does. -/
def fat32_lfncpy (dest : List Nat) (dest_offset : Nat) (src : List Nat)
    (size : Nat) : List Nat :=
  (List.range size).foldl
    (fun dst i =>
      if dest_offset + i < dst.length then dst.set (dest_offset + i) (lget src (2*i))
      else dst)
    dest

/-- The helper loop of `fat32_filename_to_8_3`, walking the source name. -/
def f83_go : List Nat → List Nat → Nat → Bool → Option (List Nat)
  | [], dest, _, _ => some dest
  | ch :: rest, dest, j, ext =>
    if ch = 46 then
      if ext then none
      else f83_go rest dest 8 true
    else if 11 ≤ j ∨ (8 ≤ j ∧ ext = false) then none
    else f83_go rest (dest.set j (to_upper ch)) (j+1) ext

/-- `fat32_filename_to_8_3(dest, src)`: space-pad 11 bytes, upper-case the
name, a single dot switches to the extension field; double extensions or
overlong parts fail. -/
def fat32_filename_to_8_3 (src : List Nat) : Option (List Nat) :=
  f83_go src (List.replicate 11 32) 0 false

/-- The trailing-space trim `fat32_open_in` applies to an assembled long
file name: scan down from index 259 for the last non-space and write the
terminator after it. -/
def lfn_trim_go (l : List Nat) : Nat → List Nat
  | 0 => if lget l 0 ≠ 32 then l.set 1 0 else l.set 0 0
  | k+1 => if lget l (k+1) ≠ 32 then l.set (k+2) 0 else lfn_trim_go l k

/-- Trailing-space trim over the whole 261-byte LFN buffer. -/
def lfn_trim (l : List Nat) : List Nat := lfn_trim_go l 259

/-- Trailing-space strip for the 11-byte volume label field. -/
def trim_trailing_spaces (l : List Nat) : List Nat :=
  (l.reverse.dropWhile (fun b => b = 32)).reverse

/-- A parsed `struct fat32_directory_entry`. -/
structure DirEnt where
  name : List Nat
  attr : Nat
  clus_hi : Nat
  clus_lo : Nat
  fsize : Nat
deriving DecidableEq

/-- Directory entry `i` of an in-memory directory buffer (32-byte stride:
name 11 bytes at 0, attribute at 11, cluster high half at 20, cluster low
half at 26, file size at 28). -/
def dir_ent_at (buf : List Nat) (i : Nat) : DirEnt :=
  { name := lslice buf (32*i) 11
    attr := lget buf (32*i + 11)
    clus_hi := le16 buf (32*i + 20)
    clus_lo := le16 buf (32*i + 26)
    fsize := le32 buf (32*i + 28) }

/-- What `fat32_open_in` hands back: the trimmed volume label when called
with a null name, the matched directory entry otherwise. -/
inductive OpenInOut
  | volLabel (l : List Nat)
  | fileEnt (e : DirEnt)
deriving DecidableEq

/-- The in-memory scan loop of `fat32_open_in` over the loaded directory
buffer: `remaining` entries left to look at starting from index `i`, with
the 261-byte LFN assembly buffer threaded through iterations.  Returns
`none` both when the name is absent and when a matching LFN run has no valid
short entry after it (the C returns `-1` in both cases). -/
def open_in_scan (ci : Bool) (buf : List Nat) (numEntries : Nat)
    (name : Option (List Nat)) :
    Nat → Nat → List Nat → Option OpenInOut
  | 0, _, _ => none
  | remaining+1, i, current_lfn =>
    if numEntries ≤ i then none
    else if lget buf (32*i) = 0 then none
    else
      match name with
      | none =>
        if (dir_ent_at buf i).attr ≠ 0x08 then
          open_in_scan ci buf numEntries name remaining (i+1) current_lfn
        else some (.volLabel (trim_trailing_spaces (lslice buf (32*i) 11)))
      | some nm =>
        if (dir_ent_at buf i).attr = 0x0F then
          let seq := lget buf (32*i)
          let lfn1 := if seq &&& 0x40 ≠ 0 then List.replicate 261 32 else current_lfn
          let seq_num := seq &&& 0x1f
          if seq_num = 0 then
            open_in_scan ci buf numEntries name remaining (i+1) lfn1
          else
            let lfn_index := (seq_num - 1) * 13
            if 260 ≤ lfn_index then
              open_in_scan ci buf numEntries name remaining (i+1) lfn1
            else
              let lfn2 := fat32_lfncpy lfn1 lfn_index (lslice buf (32*i+1) 10) 5
              let lfn3 := fat32_lfncpy lfn2 (lfn_index+5) (lslice buf (32*i+14) 12) 6
              let lfn4 := fat32_lfncpy lfn3 (lfn_index+11) (lslice buf (32*i+28) 4) 2
              if lfn_index ≠ 0 then
                open_in_scan ci buf numEntries name remaining (i+1) lfn4
              else
                let lfn5 := lfn_trim lfn4
                if (if ci then strcasecmp_eq lfn5 nm else strcmp_eq lfn5 nm) then
                  if numEntries ≤ i + 1 then none
                  else
                    let b0 := lget buf (32*(i+1))
                    if b0 = 0 ∨ b0 = 0xE5 ∨ (dir_ent_at buf (i+1)).attr = 0x0F then none
                    else some (.fileEnt (dir_ent_at buf (i+1)))
                else
                  open_in_scan ci buf numEntries name remaining (i+1) lfn5
        else if (dir_ent_at buf i).attr &&& 8 ≠ 0 then
          open_in_scan ci buf numEntries name remaining (i+1) current_lfn
        else
          match fat32_filename_to_8_3 nm with
          | none => open_in_scan ci buf numEntries name remaining (i+1) current_lfn
          | some fn =>
            if (dir_ent_at buf i).name = fn then some (.fileEnt (dir_ent_at buf i))
            else open_in_scan ci buf numEntries name remaining (i+1) current_lfn

/-- `fat32_open_in(context, directory, file, name)`.  Loads the directory
(by cluster chain, or the fixed FAT12/16 root region, into a zero-filled
buffer of the allocation size), then scans it. -/
def fat32_open_in (d : Disk) (ci : Bool) (c : Fat32Context) (S : CacheState)
    (directory : Option DirEnt) (name : Option (List Nat)) : VRes OpenInOut :=
  let bsize := c.sectors_per_cluster * c.bytes_per_sector
  match directory with
  | some dir =>
    let ccn := dir.clus_lo + (if c.fstype = 32 then dir.clus_hi * 65536 else 0)
    match cache_cluster_chain d c S ccn with
    | .fatal => .fatal
    | .err S1 => .err S1
    | .ok chain S1 =>
      let alloc_size := chain.length * bsize
      if U64 ≤ alloc_size ∨ 256 * 1024 * 1024 < alloc_size then .err S1
      else
        match read_cluster_chain d c chain alloc_size S1 0 alloc_size with
        | .fatal => .fatal
        | .err S2 => .err S2
        | .ok dirBytes S2 =>
          match open_in_scan ci dirBytes (chain.length * bsize / 32) name
              (chain.length * bsize / 32) 0 (List.replicate 261 0) with
          | none => .err S2
          | some out => .ok out S2
  | none =>
    let dir_chain_len := (c.root_entries * 32 + (bsize - 1)) / bsize
    let alloc_size := dir_chain_len * bsize
    if U64 ≤ alloc_size ∨ 256 * 1024 * 1024 < alloc_size then .err S
    else
      match volume_read d c.part S (c.root_start * c.bytes_per_sector)
          (c.root_entries * 32) with
      | .fatal => .fatal
      | .err S1 => .err S1
      | .ok bytes S1 =>
        let dirBytes := bytes ++ List.replicate (alloc_size - c.root_entries * 32) 0
        match open_in_scan ci dirBytes (dir_chain_len * bsize / 32) name
            (dir_chain_len * bsize / 32) 0 (List.replicate 261 0) with
        | none => .err S1
        | some out => .ok out S1

/-- The pseudo directory entry `fat32_init_context` and `fat32_open` build
for the FAT32 root directory (only the cluster halves are initialised; the
C leaves the rest of the stack struct unset and `fat32_open_in` reads only
the cluster fields). -/
def fat32_root_dirent (root_cluster : Nat) : DirEnt :=
  { name := List.replicate 11 0
    attr := 0
    clus_hi := root_cluster / 65536
    clus_lo := root_cluster % 65536
    fsize := 0 }

/-- The set of valid `sectors_per_cluster` values. -/
def spc_valid (n : Nat) : Bool :=
  n = 1 ∨ n = 2 ∨ n = 4 ∨ n = 8 ∨ n = 16 ∨ n = 32 ∨ n = 64 ∨ n = 128

/-- The set of valid `bytes_per_sector` values. -/
def bps_valid (n : Nat) : Bool :=
  n = 512 ∨ n = 1024 ∨ n = 2048 ∨ n = 4096

/-- `fat32_init_context(context, part)`: read and validate the BPB, identify
the FAT type from the cluster count, fill the context, then look up the
volume label via `fat32_open_in` with a null name. -/
def fat32_init_context (d : Disk) (ci : Bool) (part : Volume) (S : CacheState) :
    VRes Fat32Context :=
  match volume_read d part S 0 512 with
  | .fatal => .fatal
  | .err S1 => .err S1
  | .ok b S1 =>
    if ¬(lslice b 54 3 = sigFAT ∨ lslice b 82 3 = sigFAT ∨ lslice b 3 5 = sigFAT32)
      then .err S1
    else if ¬ spc_valid (lget b 13) then .err S1
    else if ¬ bps_valid (le16 b 11) then .err S1
    else if lget b 16 = 0 ∨ 4 < lget b 16 then .err S1
    else
      let bps := le16 b 11
      let root_entries := le16 b 17
      let root_dir_sects := (root_entries * 32 + (bps - 1)) / bps
      let total_sects := if le16 b 19 ≠ 0 then le16 b 19 else le32 b 32
      let spf0 := if le16 b 22 ≠ 0 then le16 b 22 else le32 b 36
      let metadata_sects := le16 b 14 + lget b 16 * spf0 + root_dir_sects
      if total_sects ≤ metadata_sects then .err S1
      else
        let data_sects := total_sects - metadata_sects
        let clusters_count := data_sects / lget b 13
        let fstype := if clusters_count < 4085 then 12
          else if clusters_count < 65525 then 16 else 32
        let spf := if fstype = 32 then le32 b 36 else le16 b 22
        if spf = 0 then .err S1
        else
          let root_start := le16 b 14 + lget b 16 * spf
          if 4294967295 < root_start then .err S1
          else
            let root_size := (root_entries * 32 + (bps - 1)) / bps
            let data_start_ok : Bool :=
              if fstype = 32 then true else decide (root_start + root_size ≤ 4294967295)
            if data_start_ok = false then .err S1
            else
              let c0 : Fat32Context :=
                { part := part
                  fstype := fstype
                  bytes_per_sector := bps
                  sectors_per_cluster := lget b 13
                  reserved_sectors := le16 b 14
                  number_of_fats := lget b 16
                  hidden_sectors := le32 b 28
                  sectors_per_fat := spf
                  fat_start_lba := le16 b 14
                  data_start_lba := if fstype = 32 then root_start
                    else root_start + root_size
                  root_directory_cluster := le32 b 44
                  root_entries := root_entries
                  root_start := root_start
                  root_size := root_size
                  label := none }
              let cur_dir : Option DirEnt :=
                if fstype = 32 then some (fat32_root_dirent (le32 b 44)) else none
              match fat32_open_in d ci c0 S1 cur_dir none with
              | .fatal => .fatal
              | .err S2 => .ok c0 S2
              | .ok (.volLabel l) S2 => .ok { c0 with label := some l } S2
              | .ok (.fileEnt _) S2 => .ok c0 S2

/-- `struct fat32_file_handle`, restricted to the observable fields.  A
`none` chain models the `NULL` pointer a failed `cache_cluster_chain`
leaves in place for zero-length files. -/
structure Fat32FileHandle where
  first_cluster : Nat
  size_bytes : Nat
  size_clusters : Nat
  cluster_chain : Option (List Nat)
  chain_len : Nat
deriving DecidableEq

/-- The tail of `fat32_open` once the final path component resolved to the
entry `e`: compute the first cluster, sizes, cache the cluster chain, and
fail only when the chain is missing for a file of non-zero recorded size. -/
def fat32_make_handle (d : Disk) (c : Fat32Context) (S : CacheState)
    (e : DirEnt) : VRes Fat32FileHandle :=
  let fc := e.clus_lo + (if c.fstype = 32 then e.clus_hi * 65536 else 0)
  let size_clusters := (e.fsize + (c.bytes_per_sector - 1)) / c.bytes_per_sector
  match cache_cluster_chain d c S fc with
  | .fatal => .fatal
  | .err S1 =>
    if e.fsize ≠ 0 then .err S1
    else .ok { first_cluster := fc, size_bytes := e.fsize,
               size_clusters := size_clusters,
               cluster_chain := none, chain_len := 0 } S1
  | .ok chain S1 =>
    .ok { first_cluster := fc, size_bytes := e.fsize,
          size_clusters := size_clusters,
          cluster_chain := some chain, chain_len := chain.length } S1

/-- The path-walk loop of `fat32_open`: split the remaining path at the next
`/`, resolve the component in the current directory, descend or build the
handle.  A component of 260 or more characters (no terminator inside the
on-stack buffer) fails; `fuel` dominates the number of components. -/
def fat32_walk (d : Disk) (ci : Bool) (c : Fat32Context) :
    Nat → CacheState → Option DirEnt → List Nat → VRes Fat32FileHandle
  | 0, _, _, _ => .fatal
  | fuel+1, S, cur_dir, remaining =>
    let comp := remaining.takeWhile (fun b => b ≠ 47)
    if 260 ≤ comp.length then .err S
    else
      let expect_directory := decide (comp.length < remaining.length)
      match fat32_open_in d ci c S cur_dir (some comp) with
      | .fatal => .fatal
      | .err S1 => .err S1
      | .ok (.volLabel _) S1 => .err S1
      | .ok (.fileEnt e) S1 =>
        if expect_directory then
          fat32_walk d ci c fuel S1 (some e) (remaining.drop (comp.length + 1))
        else fat32_make_handle d c S1 e

/-- `fat32_open(part, path)`: initialise the context, skip leading slashes,
walk the path.  `err` models the `NULL` return, `fatal` a panic. -/
def fat32_open (d : Disk) (ci : Bool) (part : Volume) (S : CacheState)
    (path : List Nat) : VRes Fat32FileHandle :=
  match fat32_init_context d ci part S with
  | .fatal => .fatal
  | .err S1 => .err S1
  | .ok c S1 =>
    let path1 := path.dropWhile (fun b => b = 47)
    let cur_dir : Option DirEnt :=
      if c.fstype = 32 then some (fat32_root_dirent c.root_directory_cluster) else none
    fat32_walk d ci c (path1.length + 1) S1 cur_dir path1

/-! ## ISO9660 (`iso9660.s2.c`)

Directory buffers are byte lists; a directory entry lives at a byte offset
`p` inside one.  `struct iso9660_directory_entry` is 33 packed bytes:
`length` at 0, extent LBA (little half) at 2, extent size (little half) at
10, flags at 25, `filename_size` at 32, the name from 33.  Buffers returned
by the allocator are sector-aligned, so `ALIGN_UP` on addresses is modelled
as alignment of offsets. -/

/-- Rock Ridge System Use Area scan of `load_name`: entries are
`{sig0, sig1, length, version}`-headed; look for an `NM` entry with a valid
length, stopping on a bad version, an oversized or zero-length entry, or the
end of the area.  Returns the entry offset and its name payload length. -/
def sua_scan (buf : List Nat) : Nat → Nat → Nat → Option (Nat × Nat)
  | 0, _, _ => none
  | fuel+1, off, len =>
    if len < 4 then none
    else if lget buf (off+3) ≠ 1 then none
    else if len < lget buf (off+2) then none
    else if lget buf off = 78 ∧ lget buf (off+1) = 77 then
      if 5 ≤ lget buf (off+2) ∧ lget buf (off+2) ≤ len then
        some (off, lget buf (off+2) - 5)
      else none
    else if lget buf (off+2) = 0 then none
    else sua_scan buf fuel (off + lget buf (off+2)) (len - lget buf (off+2))

/-- The ISO-name copy loop of `load_name`: stop at `;` or at `.` directly
followed by `;` (version suffix), copying everything before. -/
def iso_name_take : List Nat → List Nat
  | [] => []
  | c :: rest =>
    if c = 59 then []
    else if c = 46 ∧ rest.head? = some 59 then []
    else c :: iso_name_take rest

/-- `load_name(buf, limit, entry)` for the entry at offset `p`: prefer a
valid Rock Ridge `NM` payload (second component `true`), otherwise fall back
to the ISO name with its version suffix stripped (`false`).  `none` models
the filename-size panic. -/
def load_name (buf : List Nat) (p : Nat) (limit : Nat) : Option (List Nat × Bool) :=
  let elength := lget buf p
  let fnsize := lget buf (p+32)
  let iso : Option (List Nat × Bool) :=
    if limit ≤ fnsize then none
    else
      let name_len := if elength < 33 + fnsize then
          (if elength ≤ 33 then 0 else elength - 33) else fnsize
      some (iso_name_take (lslice buf (p+33) name_len), false)
  if elength < 33 + fnsize then iso
  else
    let len0 := elength - 33 - fnsize
    if fnsize % 2 = 0 ∧ len0 = 0 then iso
    else
      let q := if fnsize % 2 = 0 then p + 33 + fnsize + 1 else p + 33 + fnsize
      let len := if fnsize % 2 = 0 then len0 - 1 else len0
      match sua_scan buf len q len with
      | some (nm_off, rrlen) =>
        if 0 < rrlen then
          if limit ≤ rrlen then none
          else some (lslice buf (nm_off + 5) rrlen, true)
        else iso
      | none => iso

/-- `iso9660_next_entry(current, buffer_end)`: step to the following
directory entry, skipping `length == 0` sector padding, rejecting entries
shorter than the fixed header. -/
def iso9660_next_entry (buf : List Nat) (bufEnd : Nat) (p : Nat) : Option Nat :=
  let len := lget buf p
  if len = 0 then
    let next_sector := ((p + 1 + 2047) / 2048) * 2048
    if bufEnd ≤ next_sector then none
    else if lget buf next_sector = 0 then none
    else some next_sector
  else
    let next := p + len
    if bufEnd ≤ next then none
    else if lget buf next = 0 then
      let ns := ((next + 1 + 2047) / 2048) * 2048
      if bufEnd ≤ ns then none
      else if lget buf ns = 0 then none
      else if lget buf ns < 33 then none
      else some ns
    else if lget buf next < 33 then none
    else some next

/-- Result of `iso9660_find`: `fatal` models the filename-size panic inside
`load_name`. -/
inductive FRes
  | fatal
  | notFound
  | found (off : Nat)
deriving DecidableEq

/-- The scan loop of `iso9660_find` at offset `p` with `s` bytes remaining
(`p + s` stays the buffer size): `length == 0` advances to the next sector
boundary counted from the end; otherwise decode the name and compare with
`strcmp` for a Rock Ridge name in case-sensitive mode, `strcasecmp`
otherwise. -/
def iso9660_find_go (ci : Bool) (buf : List Nat) (filename : List Nat) :
    Nat → Nat → Nat → FRes
  | 0, _, _ => .notFound
  | fuel+1, p, s =>
    if s = 0 then .notFound
    else
      let len := lget buf p
      if len = 0 then
        if s ≤ 2048 then .notFound
        else
          let s2 := (s / 2048) * 2048
          if s = s2 then iso9660_find_go ci buf filename fuel (p + 2048) (s - 2048)
          else iso9660_find_go ci buf filename fuel (p + (s - s2)) s2
      else if s < len then .notFound
      else if len < 33 then .notFound
      else
        match load_name buf p 256 with
        | none => .fatal
        | some (n, rr) =>
          if (if rr ∧ ci = false then strcmp_eq filename n
              else strcasecmp_eq filename n) then .found p
          else iso9660_find_go ci buf filename fuel (p + len) (s - len)

/-- `iso9660_find(buffer, size, filename)` under the global
case-insensitive flag `ci`. -/
def iso9660_find (ci : Bool) (buf : List Nat) (size : Nat)
    (filename : List Nat) : FRes :=
  iso9660_find_go ci buf filename size 0 size

/-- First pass of the multi-extent collection in `iso9660_open`: while the
entry has the multi-extent flag, follow `iso9660_next_entry`, counting
entries and summing extent sizes, capped at 65 536 extents. -/
def extent_count_loop (buf : List Nat) (bufEnd : Nat) :
    Nat → Nat → Nat → Nat → Nat × Nat
  | 0, _, cnt, tot => (cnt, tot)
  | fuel+1, e, cnt, tot =>
    if lget buf (e+25) &&& 0x80 = 0 then (cnt, tot)
    else
      match iso9660_next_entry buf bufEnd e with
      | none => (cnt, tot)
      | some e2 =>
        let cnt2 := cnt + 1
        let tot2 := tot + le32 buf (e2+10)
        if 65536 ≤ cnt2 then (cnt2, tot2)
        else extent_count_loop buf bufEnd fuel e2 cnt2 tot2

/-- Second pass: fill the extent array (`{LBA, size}` pairs); a broken chain
leaves the zero-initialised tail in place. -/
def extent_fill_loop (buf : List Nat) (bufEnd : Nat) :
    Nat → Nat → List (Nat × Nat)
  | 0, _ => []
  | n+1, e =>
    (le32 buf (e+2), le32 buf (e+10)) ::
      (if n = 0 then []
       else
         match iso9660_next_entry buf bufEnd e with
         | none => List.replicate n (0, 0)
         | some e2 => extent_fill_loop buf bufEnd n e2)

/-- The extent-collection block of `iso9660_open` for the matched entry at
offset `p`: returns the extent list and the accumulated total size. -/
def iso9660_collect_extents (buf : List Nat) (bufEnd : Nat) (p : Nat) :
    List (Nat × Nat) × Nat :=
  let ct := extent_count_loop buf bufEnd 65536 p 1 (le32 buf (p+10))
  (extent_fill_loop buf bufEnd ct.1 p, ct.2)

/-- `iso9660_read(handle, buf, loc, count)`: walk the extent list with a
running start offset, reading the in-extent piece of the request from
`LBA × 2048 + offset` for each touched extent.  A failed `volume_read`
panics. -/
def iso9660_read (d : Disk) (v : Volume) :
    List (Nat × Nat) → CacheState → Nat → Nat → Nat → VRes (List Nat)
  | [], S, _, _, _ => .ok [] S
  | (lba, sz) :: rest, S, est, loc, count =>
    if count = 0 then .ok [] S
    else
      let eend := est + sz
      if loc < eend then
        let off := if est < loc then loc - est else 0
        let to_read := min count (sz - off)
        match volume_read d v S (lba * 2048 + off) to_read with
        | .fatal => .fatal
        | .err _ => .fatal
        | .ok bytes S1 =>
          match iso9660_read d v rest S1 eend (loc + to_read) (count - to_read) with
          | .ok more S2 => .ok (bytes ++ more) S2
          | e => e
      else iso9660_read d v rest S eend loc count

/-! ## Path canonicalization (`get_absolute_path`)

The output buffer is a total byte function whose initial contents are
arbitrary (the C caller passes an uninitialised stack buffer); positions are
indices from the start of the buffer; `47` is `/` and `46` is `.`. -/

/-- Single byte store. -/
def bset (b : Nat → Nat) (i x : Nat) : Nat → Nat :=
  fun j => if j = i then x else b j

/-- `memcpy` of a list to the start of the buffer. -/
def bwrite (b : Nat → Nat) (l : List Nat) : Nat → Nat :=
  fun j => if j < l.length then lget l j else b j

/-- Result of `get_absolute_path`: `ub` marks a read below the start of the
output buffer (C undefined behaviour), `spin` fuel exhaustion (unreachable
for the fuel the wrapper passes), `failed` the `false` return, and `done n
buf` the `true` return with the terminator written at index `n` of the
final buffer `buf` (the produced string is bytes `0..n-1`). -/
inductive GapOut
  | ub
  | spin
  | failed
  | done (n : Nat) (buf : Nat → Nat)

/-- The produced C string of a successful run. -/
def GapOut.out : GapOut → Option (List Nat)
  | .done n buf => some ((List.range n).map buf)
  | _ => none

/-- Whether the run returned at all (no undefined behaviour, no spin). -/
def GapOut.returned : GapOut → Bool
  | .ub => false
  | .spin => false
  | _ => true

/-- The backwards `/` scan of the `..` handling (`while (*path_ptr != '/')
path_ptr--`), starting at and including `pos`; `none` when it would step
below the buffer. -/
def scan_back (buf : Nat → Nat) : Nat → Option Nat
  | 0 => if buf 0 = 47 then some 0 else none
  | p+1 => if buf (p+1) = 47 then some (p+1) else scan_back buf p

/-- The `term` label: strip one trailing `/` (except at the root), write the
terminator.  Reads the byte before the cursor, so a cursor at 0 is an
out-of-bounds read. -/
def gap_term (buf : Nat → Nat) (pos : Nat) : GapOut :=
  if pos = 0 then .ub
  else
    let pos2 := if buf (pos - 1) = 47 ∧ pos - 1 ≠ 0 then pos - 1 else pos
    .done pos2 (bset buf pos2 0)

/-- The main loop of `get_absolute_path`.  `firstRun = true` models control
being at the `first_run` label (just after a `/` was consumed, or the
initial `goto`); `false` models the `switch` head.  Fuel only bounds the
iteration count; the wrapper passes enough for every input. -/
def gap_go (size : Nat) : Nat → (Nat → Nat) → Nat → List Nat → Bool → GapOut
  | 0, _, _, _, _ => .spin
  | fuel+1, buf, pos, path, firstRun =>
    if firstRun then
      match path with
      | 47 :: _ => gap_go size fuel buf pos path false
      | _ =>
        if path = [46] ∨ path = [46, 47] then gap_term buf pos
        else if path = [46, 46] ∨ path = [46, 46, 47] then
          match scan_back buf pos with
          | none => .ub
          | some p2 => gap_term buf (if p2 = 0 then 1 else p2)
        else if path.take 3 = [46, 46, 47] then
          match scan_back buf pos with
          | none => .ub
          | some p2 =>
            let p3 := if p2 = 0 then 1 else p2
            gap_go size fuel (bset buf p3 0) p3 (path.drop 2) false
        else if path.take 2 = [46, 47] then
          gap_go size fuel buf pos (path.drop 1) false
        else
          if pos = 0 then .ub
          else if pos ≠ 1 ∧ buf (pos - 1) ≠ 47 then
            if size - 1 ≤ pos then .failed
            else gap_go size fuel (bset buf pos 47) (pos + 1) path false
          else gap_go size fuel buf pos path false
    else
      match path with
      | [] => gap_term buf pos
      | 47 :: rest => gap_go size fuel buf pos rest true
      | c :: rest =>
        if size - 1 ≤ pos then .failed
        else gap_go size fuel (bset buf pos c) (pos + 1) rest false

/-- `get_absolute_path(path_ptr, path, pwd, size)`: empty input copies the
working directory verbatim; an absolute input starts after the written `/`;
a relative input continues after the copied working directory. -/
def get_absolute_path (path pwd : List Nat) (b0 : Nat → Nat) (size : Nat) :
    GapOut :=
  if size = 0 then .failed
  else
    match path with
    | [] =>
      if size ≤ pwd.length then .failed
      else .done pwd.length (bwrite b0 (pwd ++ [0]))
    | 47 :: rest =>
      gap_go size (2 * rest.length + 4) (bset b0 0 47) 1 rest true
    | _ =>
      if size ≤ pwd.length then .failed
      else gap_go size (2 * path.length + 4) (bwrite b0 (pwd ++ [0]))
        pwd.length path true

/-! ## Concrete instances used by witnesses and counterexamples -/

/-- A healthy demo disk: byte `n` holds `n % 251`, every transfer succeeds. -/
def demo_disk : Disk := { data := fun n => n % 251, status := fun _ _ => .success }

/-- A disk whose every read reports `DISK_NO_MEDIA`. -/
def no_media_disk : Disk := { data := fun _ => 0, status := fun _ _ => .noMedia }

/-- A 4-sector, 512-byte-sector whole-disk volume. -/
def demo_volume : Volume where
  pxe := false
  sector_size := 512
  fastest_xfer_size := 1
  first_sect := 0
  sect_count := 4
  index := 0
  is_optical := false
  partition := 0

/-- A volume whose `first_sect` is not a multiple of `sector_size / 512`
(4096-byte sectors starting at 512-unit sector 1). -/
def misaligned_volume : Volume where
  pxe := false
  sector_size := 4096
  fastest_xfer_size := 1
  first_sect := 1
  sect_count := 4
  index := 0
  is_optical := false
  partition := 0

/-- The demo volume with the unknown-size sentinel. -/
def sentinel_volume : Volume where
  pxe := false
  sector_size := 512
  fastest_xfer_size := 1
  first_sect := 0
  sect_count := UNKNOWN_SIZE
  index := 0
  is_optical := false
  partition := 0

/-- A cold cache with zeroed buffer. -/
def cold_cache : CacheState :=
  { cache_status := false, cached_block := 0, cache := fun _ => 0 }

/-- A cache that claims block 0 is ready but holds bytes that are not on the
disk. -/
def poisoned_cache : CacheState :=
  { cache_status := true, cached_block := 0, cache := fun _ => 99 }

/-- The partition-scan outcome with the cache state forgotten (`none` when
the modelled C panicked). -/
def part_res (r : Option (PartR × CacheState)) : Option PartR := r.map Prod.fst

/-- A disk holding a valid GPT with logical block size 512 and one sane
partition entry: `EFI PART` signature and revision 1.0 at offset 512, the
entry array at LBA 2, entry 0 with a non-zero unique GUID, starting LBA
2048 and ending LBA 4095. -/
def gpt_disk : Disk where
  data := fun n =>
    if n = 512 then 69 else if n = 513 then 70 else
    if n = 514 then 73 else if n = 515 then 32 else
    if n = 516 then 80 else if n = 517 then 65 else
    if n = 518 then 82 else if n = 519 then 84 else
    if n = 522 then 1 else
    if n = 584 then 2 else
    if n = 592 then 4 else
    if n = 596 then 128 else
    if n = 1040 then 1 else
    if n = 1057 then 8 else
    if n = 1064 then 255 else if n = 1065 then 15 else 0
  status := fun _ _ => .success

/-- The parsed header of `gpt_disk`. -/
def gpt_disk_header : GptHeader where
  signature := gptSignature
  revision := 0x00010000
  partition_entry_lba := 2
  number_of_partition_entries := 4
  size_of_partition_entry := 128

/-- An 8192-sector parent volume over `gpt_disk`. -/
def gpt_volume : Volume where
  pxe := false
  sector_size := 512
  fastest_xfer_size := 1
  first_sect := 0
  sect_count := 8192
  index := 0
  is_optical := false
  partition := 0

/-- A disk with a plausible MBR whose first primary entry (type `0x83`)
claims `first_sect = 1000000`, `sect_count = 1000` — far beyond the small
parent volume. -/
def mbr_disk : Disk where
  data := fun n =>
    if n = 450 then 0x83 else
    if n = 454 then 0x40 else if n = 455 then 0x42 else
    if n = 456 then 0x0F else
    if n = 458 then 0xE8 else if n = 459 then 3 else 0
  status := fun _ _ => .success

/-- A 2048-sector (1 MiB) parent volume over `mbr_disk`. -/
def mbr_volume : Volume where
  pxe := false
  sector_size := 512
  fastest_xfer_size := 1
  first_sect := 0
  sect_count := 2048
  index := 0
  is_optical := false
  partition := 0

/-- The child volume `part_get` produces for partition 0 of `mbr_disk`. -/
def mbr_child : Volume where
  pxe := false
  sector_size := 512
  fastest_xfer_size := 1
  first_sect := 1000000
  sect_count := 1000
  index := 0
  is_optical := false
  partition := 1

/-- A 65536-sector volume with 128-sector transfer blocks: one cached block
covers the first 64 KiB, so the whole FAT region of `fat12_ctx` fits in
block 0. -/
def fat12_part : Volume where
  pxe := false
  sector_size := 512
  fastest_xfer_size := 128
  first_sect := 0
  sect_count := 65536
  index := 0
  is_optical := false
  partition := 0

/-- A FAT12 context over `fat12_part`: 512-byte sectors, one sector per
cluster, the FAT at sector 1, a 16-entry root directory at sector 2, data
from sector 3. -/
def fat12_ctx : Fat32Context where
  part := fat12_part
  fstype := 12
  bytes_per_sector := 512
  sectors_per_cluster := 1
  reserved_sectors := 1
  number_of_fats := 1
  hidden_sectors := 0
  sectors_per_fat := 1
  fat_start_lba := 1
  data_start_lba := 3
  root_directory_cluster := 0
  root_entries := 16
  root_start := 2
  root_size := 1
  label := none

/-- A warm cache whose block 0 holds a FAT12 table with the 2-cycle
`FAT[3] = 4`, `FAT[4] = 3` (cluster 3 is odd, so its 12-bit value is the
high bits of the 16-bit word at FAT offset 4; cluster 4 is even, so its
value is the low bits of the word at offset 6). -/
def cyclic_fat_cache : CacheState where
  cache_status := true
  cached_block := 0
  cache := fun n => if n = 516 then 64 else if n = 518 then 3 else 0

/-- A disk whose sector 2 (the root directory of `fat12_ctx`) holds a single
8.3 entry `Z` with attribute 0, first cluster 0 and file size 0 — a
zero-length file. -/
def zerofile_disk : Disk where
  data := fun n =>
    if n = 1024 then 90 else
    if 1025 ≤ n ∧ n ≤ 1034 then 32 else 0
  status := fun _ _ => .success

/-- The sum of the sizes of an extent list. -/
def extents_total : List (Nat × Nat) → Nat
  | [] => 0
  | x :: rest => x.2 + extents_total rest

/-- The concatenation of the extents' device contents in list order: extent
`(lba, sz)` occupies bytes `[lba × 2048, lba × 2048 + sz)` of the volume. -/
def extents_bytes (d : Disk) (v : Volume) : List (Nat × Nat) → List Nat
  | [] => []
  | x :: rest => pure_bytes d v (x.1 * 2048) x.2 ++ extents_bytes d v rest

/-- A 61-byte ISO9660 directory entry with ISO name `README.TXT;1`
(filename size 12 at offset 32, name from 33), a pad byte at 45, and a Rock
Ridge System Use Area from 46 holding one `NM` entry (signature `NM`,
length 15, version 1, flags 0) whose payload is `readme.txt`. -/
def nm_dirent : List Nat :=
  [61] ++ List.replicate 31 0 ++ [12] ++
  [82, 69, 65, 68, 77, 69, 46, 84, 88, 84, 59, 49] ++ [0] ++
  [78, 77, 15, 1, 0] ++
  [114, 101, 97, 100, 109, 101, 46, 116, 120, 116]

/-- The same directory entry without any System Use Area (length 45). -/
def plain_dirent : List Nat :=
  [45] ++ List.replicate 31 0 ++ [12] ++
  [82, 69, 65, 68, 77, 69, 46, 84, 88, 84, 59, 49]

/-- ASCII bytes of `readme.txt`. -/
def name_readme_lower : List Nat :=
  [114, 101, 97, 100, 109, 101, 46, 116, 120, 116]

/-- ASCII bytes of `README.TXT`. -/
def name_readme_upper : List Nat :=
  [82, 69, 65, 68, 77, 69, 46, 84, 88, 84]

/-- The terminator index of a successful `get_absolute_path` run. -/
def GapOut.endPos : GapOut → Option Nat
  | .done n _ => some n
  | _ => none

/-- Sequential byte stores of a list starting at `pos`. -/
def bsets : (Nat → Nat) → Nat → List Nat → (Nat → Nat)
  | buf, _, [] => buf
  | buf, pos, c :: rest => bsets (bset buf pos c) (pos + 1) rest

/-- A well-formed path segment of a canonical absolute path: nonempty, free
of `/`, and neither `.` nor `..`. -/
def seg_ok (seg : List Nat) : Bool :=
  decide (seg ≠ []) && seg.all (fun c => decide (c ≠ 47)) &&
  decide (seg ≠ [46]) && decide (seg ≠ [46, 46])

/-- Segments joined with `/` separators (no leading or trailing slash). -/
def segs_join : List (List Nat) → List Nat
  | [] => []
  | [s] => s
  | s :: rest => s ++ 47 :: segs_join rest

/-- A disk whose FAT12 table (sector 1 of `fat12_ctx`) holds the 2-cycle
`FAT[3] = 4`, `FAT[4] = 3`, and whose root directory (sector 2) holds one
8.3 entry `Z` with attribute 0, first cluster 3 — the entry point of the
cycle — and file size 0. -/
def cyclic_zerofile_disk : Disk where
  data := fun n =>
    if n = 516 then 64 else
    if n = 518 then 3 else
    if n = 1024 then 90 else
    if 1025 ≤ n ∧ n ≤ 1034 then 32 else
    if n = 1050 then 3 else 0
  status := fun _ _ => .success

/-- The directory entry `fat32_open_in` finds for `Z` on
`cyclic_zerofile_disk`. -/
def cyclic_zf_ent : DirEnt where
  name := [90, 32, 32, 32, 32, 32, 32, 32, 32, 32, 32]
  attr := 0
  clus_hi := 0
  clus_lo := 3
  fsize := 0

/-- The cache state after `fat32_open_in` loads the root directory of
`cyclic_zerofile_disk`: block 0 (the first 64 KiB, covering the FAT) is
warm, so every later FAT lookup is served from this cache unchanged. -/
def cyclic_zf_state : CacheState where
  cache_status := true
  cached_block := 0
  cache := fun i => if i < 65536 then cyclic_zerofile_disk.data (0 + i) else 0

/-! ## Helper lemmas about the volume reader -/

theorem range_map_split {α : Type} (f : Nat → α) (a b : Nat) :
    (List.range (a+b)).map f =
      (List.range a).map f ++ (List.range b).map (fun i => f (a + i)) := by
  rw [List.range_add, List.map_append, List.map_map]; rfl

theorem pure_bytes_split (d : Disk) (v : Volume) (pos c r : Nat) (h : c ≤ r) :
    pure_bytes d v pos r =
      pure_bytes d v pos c ++ pure_bytes d v (pos + c) (r - c) := by
  have h1 := range_map_split (fun i => d.data (v.first_sect * 512 + pos + i)) c (r - c)
  unfold pure_bytes
  rw [show c + (r - c) = r by omega] at h1
  rw [h1]
  congr 1
  apply List.map_congr_left
  intro i _
  congr 1
  omega

theorem bytes_ok_split (d : Disk) (v : Volume) (pos c r : Nat) (h : c ≤ r) :
    bytes_ok d v pos r =
      (bytes_ok d v pos c && bytes_ok d v (pos + c) (r - c)) := by
  unfold bytes_ok
  have h1 : List.range r = List.range c ++ (List.range (r-c)).map (fun x => c + x) := by
    rw [← List.range_add, show c + (r - c) = r by omega]
  rw [h1, List.all_append, List.all_map]
  congr 1
  apply congrArg (List.all (List.range (r - c)))
  funext i
  simp only [Function.comp]
  have h2 : pos + (c + i) = pos + c + i := by omega
  rw [h2]

theorem chunk_same_block (bs pos i : Nat) (hbs : 0 < bs)
    (hi : i < bs - pos % bs) : (pos + i) / bs = pos / bs := by
  have hmod := Nat.div_add_mod pos bs
  have h1 : pos + i = bs * (pos / bs) + (pos % bs + i) := by omega
  have h2 : pos % bs + i < bs := by
    have := Nat.mod_lt pos hbs
    omega
  rw [h1, Nat.mul_add_div hbs, Nat.div_eq_of_lt h2]
  omega

theorem block_size_pos (v : Volume) (hfx : 1 ≤ v.fastest_xfer_size)
    (hss : sector_size_ok v) : 1 ≤ block_size v := by
  unfold block_size
  rcases hss with h | h <;> rw [h] <;> omega

theorem vloop_zero_r (d : Disk) (v : Volume) (fuel : Nat) (S : CacheState)
    (pos : Nat) : volume_read_loop d v fuel S pos 0 = .ok [] S := by
  cases fuel <;> rfl

theorem disk_try_read_retry (d : Disk) (v : Volume) (old : Nat → Nat) (s : Nat) :
    ∀ x, (disk_try_read d v old s x).isSome = retry_ok d s x := by
  intro x
  induction x with
  | zero => rfl
  | succ n ih =>
    unfold disk_try_read retry_ok
    cases d.status s (n+1) <;> simp [ih]

theorem disk_try_read_full (d : Disk) (v : Volume) (old : Nat → Nat) (s : Nat)
    (hnd : d.status s v.fastest_xfer_size ≠ DiskStatus.transient)
    (h : retry_ok d s v.fastest_xfer_size = true) :
    disk_try_read d v old s v.fastest_xfer_size =
      some (fun i =>
        if i < v.fastest_xfer_size * v.sector_size then
          d.data (s * v.sector_size + i)
        else old i) := by
  match hx : v.fastest_xfer_size with
  | 0 => rw [hx] at h; simp [retry_ok] at h
  | x + 1 =>
    rw [hx] at hnd h
    unfold disk_try_read
    unfold retry_ok at h
    match hst : d.status s (x+1) with
    | .success => simp [hst]
    | .noMedia => rw [hst] at h; simp at h
    | .transient => exact absurd hst hnd

theorem cache_block_warm (d : Disk) (v : Volume) (S : CacheState) (b : Nat)
    (h1 : S.cache_status = true) (h2 : b = S.cached_block) :
    cache_block d v S b = (true, S) := by
  unfold cache_block
  rw [if_pos ⟨h1, h2⟩]

/-- Every cold call of `cache_block` that fails returns the invalidated
input state. -/
def cold_fails (d : Disk) (v : Volume) : Prop :=
  ∀ S b, ¬(S.cache_status = true ∧ b = S.cached_block) →
    cache_block d v S b = (false, { S with cache_status := false })

theorem cache_block_spec (d : Disk) (v : Volume) (S : CacheState) (b : Nat)
    (hnd : nondegrading d v) (hal : aligned v = true) (hco : coherent d v S) :
    (block_ok d v b = true →
      ∃ S', cache_block d v S b = (true, S') ∧ coherent d v S' ∧
        ∀ i, i < block_size v →
          S'.cache i = d.data (block_sector v b * v.sector_size + i)) ∧
    (block_ok d v b = false →
      ∃ S', cache_block d v S b = (false, S')) := by
  have halv : v.first_sect % (v.sector_size / 512) = 0 := by
    have := of_decide_eq_true hal
    exact this
  by_cases hw : S.cache_status = true ∧ b = S.cached_block
  · -- warm hit
    have hcs := hco hw.1
    constructor
    · intro _
      refine ⟨S, cache_block_warm d v S b hw.1 hw.2, hco, ?_⟩
      intro i hi
      rw [hw.2]
      exact hcs.2.2 i hi
    · intro hbad
      rw [← hw.2] at hcs
      rw [hcs.2.1] at hbad
      cases hbad
  · -- cold path
    have hcold : ∀ r : Bool × CacheState, cache_block d v S b = r →
        (if U64 ≤ b * v.fastest_xfer_size then
          (false, { S with cache_status := false })
        else if U64 ≤ v.first_sect / (v.sector_size / 512) + b * v.fastest_xfer_size then
          (false, { S with cache_status := false })
        else
          match disk_try_read d v S.cache
              (v.first_sect / (v.sector_size / 512) + b * v.fastest_xfer_size)
              v.fastest_xfer_size with
          | none => (false, { S with cache_status := false })
          | some c => (true, { cache_status := true, cached_block := b, cache := c })) = r := by
      intro r hr
      unfold cache_block at hr
      rw [if_neg hw, if_neg (by simp [halv])] at hr
      exact hr
    have heq := hcold _ rfl
    constructor
    · intro hok
      have hok' := hok
      unfold block_ok at hok'
      simp only [Bool.and_eq_true, decide_eq_true_eq] at hok'
      obtain ⟨⟨h1, h2⟩, h3⟩ := hok'
      rw [if_neg (by omega), if_neg (by omega)] at heq
      have hfull := disk_try_read_full d v S.cache (block_sector v b)
        (hnd _) h3
      unfold block_sector at hfull
      rw [hfull] at heq
      refine ⟨_, heq.symm, ?_, ?_⟩
      · intro _
        refine ⟨hal, hok, ?_⟩
        intro i hi
        unfold block_size at hi
        simp only
        rw [if_pos hi]
        rfl
      · intro i hi
        unfold block_size at hi
        simp only
        rw [if_pos hi]
        rfl
    · intro hbad
      by_cases h1 : U64 ≤ b * v.fastest_xfer_size
      · rw [if_pos h1] at heq
        exact ⟨_, heq.symm⟩
      · rw [if_neg h1] at heq
        by_cases h2 : U64 ≤ v.first_sect / (v.sector_size / 512) + b * v.fastest_xfer_size
        · rw [if_pos h2] at heq
          exact ⟨_, heq.symm⟩
        · rw [if_neg h2] at heq
          have hro : retry_ok d
              (v.first_sect / (v.sector_size / 512) + b * v.fastest_xfer_size)
              v.fastest_xfer_size = false := by
            cases h : retry_ok d
                (v.first_sect / (v.sector_size / 512) + b * v.fastest_xfer_size)
                v.fastest_xfer_size
            · rfl
            · exfalso
              have hbt : block_ok d v b = true := by
                unfold block_ok block_sector
                simp only [Bool.and_eq_true, decide_eq_true_eq]
                exact ⟨⟨by omega, by omega⟩, h⟩
              rw [hbt] at hbad
              cases hbad
          have hnone : disk_try_read d v S.cache
              (v.first_sect / (v.sector_size / 512) + b * v.fastest_xfer_size)
              v.fastest_xfer_size = none := by
            have h4 := disk_try_read_retry d v S.cache
              (v.first_sect / (v.sector_size / 512) + b * v.fastest_xfer_size)
              v.fastest_xfer_size
            rw [hro] at h4
            cases h5 : disk_try_read d v S.cache
                (v.first_sect / (v.sector_size / 512) + b * v.fastest_xfer_size)
                v.fastest_xfer_size with
            | none => rfl
            | some c => rw [h5] at h4; simp at h4
          rw [hnone] at heq
          exact ⟨_, heq.symm⟩

theorem vloop_step (d : Disk) (v : Volume) (fuel : Nat) (S : CacheState)
    (pos r : Nat) :
    volume_read_loop d v (fuel+1) S pos (r+1) =
      match cache_block d v S (pos / (v.fastest_xfer_size * v.sector_size)) with
      | (false, S1) => .err S1
      | (true, S1) =>
        let offset := pos % (v.fastest_xfer_size * v.sector_size)
        let chunk := min (r+1) ((v.fastest_xfer_size * v.sector_size) - offset)
        if chunk = 0 then .fatal
        else
          match volume_read_loop d v fuel S1 (pos + chunk) (r + 1 - chunk) with
          | .ok rest S2 =>
            .ok ((List.range chunk).map (fun i => S1.cache (offset + i)) ++ rest) S2
          | e => e := rfl

theorem cold_fails_of_misaligned (d : Disk) (v : Volume)
    (hal : aligned v = false) : cold_fails d v := by
  intro S b hw
  unfold cache_block
  rw [if_neg hw]
  have hne : v.first_sect % (v.sector_size / 512) ≠ 0 := of_decide_eq_false hal
  rw [if_pos hne]

theorem disk_try_read_no_media (d : Disk) (v : Volume) (old : Nat → Nat)
    (s : Nat) (hnm : ∀ s x, d.status s x = DiskStatus.noMedia) :
    ∀ x, disk_try_read d v old s x = none := by
  intro x
  cases x with
  | zero => rfl
  | succ n => unfold disk_try_read; rw [hnm]

theorem cold_fails_of_no_media (d : Disk) (v : Volume)
    (hnm : ∀ s x, d.status s x = DiskStatus.noMedia) : cold_fails d v := by
  intro S b hw
  unfold cache_block
  rw [if_neg hw]
  by_cases hmis : v.first_sect % (v.sector_size / 512) ≠ 0
  · rw [if_pos hmis]
  · rw [if_neg hmis]
    by_cases h1 : U64 ≤ b * v.fastest_xfer_size
    · rw [if_pos h1]
    · rw [if_neg h1]
      by_cases h2 : U64 ≤ v.first_sect / (v.sector_size / 512) + b * v.fastest_xfer_size
      · rw [if_pos h2]
      · rw [if_neg h2]
        rw [disk_try_read_no_media d v _ _ hnm]

theorem gen_fail (d : Disk) (v : Volume) (hcf : cold_fails d v)
    (hbs : 0 < v.fastest_xfer_size * v.sector_size) :
    ∀ fuel r pos S, 1 ≤ r → r ≤ fuel →
      ¬(S.cache_status = true ∧ ∀ i, i < r →
        (pos + i) / (v.fastest_xfer_size * v.sector_size) = S.cached_block) →
      ∃ S', volume_read_loop d v fuel S pos r = .err S' := by
  intro fuel
  induction fuel with
  | zero => intro r pos S hr hrf _; omega
  | succ n ih =>
    intro r pos S hr hrf hW
    obtain ⟨r', rfl⟩ : ∃ r', r = r' + 1 := ⟨r - 1, by omega⟩
    by_cases hw : S.cache_status = true ∧
        pos / (v.fastest_xfer_size * v.sector_size) = S.cached_block
    · have hcb := cache_block_warm d v S
        (pos / (v.fastest_xfer_size * v.sector_size)) hw.1 hw.2
      rw [vloop_step, hcb]
      simp only
      have hofs : pos % (v.fastest_xfer_size * v.sector_size) <
          v.fastest_xfer_size * v.sector_size := Nat.mod_lt _ hbs
      set chunk := min (r'+1)
        ((v.fastest_xfer_size * v.sector_size) -
          pos % (v.fastest_xfer_size * v.sector_size)) with hchunkdef
      have hchunk1 : 1 ≤ chunk := by omega
      rw [if_neg (by omega)]
      have hB : ¬ ∀ i, i < r' + 1 →
          (pos + i) / (v.fastest_xfer_size * v.sector_size) = S.cached_block :=
        fun hf => hW ⟨hw.1, hf⟩
      push_neg at hB
      obtain ⟨i0, hi0, hne⟩ := hB
      have hchunklt : ∀ i, i < chunk →
          (pos + i) / (v.fastest_xfer_size * v.sector_size) = S.cached_block := by
        intro i hi
        rw [chunk_same_block _ pos i hbs (by omega)]
        exact hw.2
      have hge : chunk ≤ i0 := by
        by_contra hcon
        exact hne (hchunklt i0 (by omega))
      have hrec := ih (r' + 1 - chunk) (pos + chunk) S (by omega) (by omega) ?_
      · obtain ⟨S', hS'⟩ := hrec
        rw [hS']
        exact ⟨S', rfl⟩
      · rintro ⟨_, hall⟩
        apply hne
        have h1 : pos + i0 = pos + chunk + (i0 - chunk) := by omega
        rw [h1]
        exact hall (i0 - chunk) (by omega)
    · have hcb := hcf S (pos / (v.fastest_xfer_size * v.sector_size)) hw
      rw [vloop_step, hcb]
      exact ⟨_, rfl⟩

theorem vloop_no_fatal (d : Disk) (v : Volume)
    (hbs : 0 < v.fastest_xfer_size * v.sector_size) :
    ∀ fuel r pos S, r ≤ fuel → volume_read_loop d v fuel S pos r ≠ .fatal := by
  intro fuel
  induction fuel with
  | zero =>
    intro r pos S hrf
    match r with
    | 0 => rw [vloop_zero_r]; intro h; cases h
    | r'+1 => omega
  | succ n ih =>
    intro r pos S hrf
    match r with
    | 0 => rw [vloop_zero_r]; intro h; cases h
    | r'+1 =>
      rw [vloop_step]
      match hcb : cache_block d v S
          (pos / (v.fastest_xfer_size * v.sector_size)) with
      | (false, S1) => intro h; cases h
      | (true, S1) =>
        simp only
        have hofs : pos % (v.fastest_xfer_size * v.sector_size) <
            v.fastest_xfer_size * v.sector_size := Nat.mod_lt _ hbs
        rw [if_neg (by omega)]
        have hrec := ih (r' + 1 - min (r'+1)
          ((v.fastest_xfer_size * v.sector_size) -
            pos % (v.fastest_xfer_size * v.sector_size)))
          (pos + min (r'+1)
            ((v.fastest_xfer_size * v.sector_size) -
              pos % (v.fastest_xfer_size * v.sector_size))) S1 (by omega)
        match hres : volume_read_loop d v n S1
            (pos + min (r'+1)
              ((v.fastest_xfer_size * v.sector_size) -
                pos % (v.fastest_xfer_size * v.sector_size)))
            (r' + 1 - min (r'+1)
              ((v.fastest_xfer_size * v.sector_size) -
                pos % (v.fastest_xfer_size * v.sector_size))) with
        | .fatal => exact absurd hres hrec
        | .err S2 => intro h; cases h
        | .ok rest S2 => intro h; cases h

theorem vloop_step2 (d : Disk) (v : Volume) (fuel : Nat) (S : CacheState)
    (pos r : Nat) :
    volume_read_loop d v (fuel+1) S pos (r+1) =
      match cache_block d v S (pos / block_size v) with
      | (false, S1) => .err S1
      | (true, S1) =>
        let chunk := min (r+1) (block_size v - pos % block_size v)
        if chunk = 0 then .fatal
        else
          match volume_read_loop d v fuel S1 (pos + chunk) (r + 1 - chunk) with
          | .ok rest S2 =>
            .ok ((List.range chunk).map
              (fun i => S1.cache (pos % block_size v + i)) ++ rest) S2
          | e => e := rfl

theorem block_sector_bytes (v : Volume) (hal : aligned v = true)
    (hss : sector_size_ok v) (b : Nat) :
    block_sector v b * v.sector_size =
      v.first_sect * 512 + block_size v * b := by
  have halv : v.first_sect % (v.sector_size / 512) = 0 := of_decide_eq_true hal
  unfold block_sector block_size
  rcases hss with h | h <;> rw [h] at halv ⊢
  · norm_num
    ring
  · norm_num at halv ⊢
    obtain ⟨k, hk⟩ := Nat.dvd_of_mod_eq_zero halv
    rw [hk, Nat.mul_div_cancel_left k (by norm_num : (0:Nat) < 8)]
    ring

theorem vloop_spec (d : Disk) (v : Volume)
    (hnd : nondegrading d v) (hal : aligned v = true)
    (hss : sector_size_ok v) (hfx : 1 ≤ v.fastest_xfer_size) :
    ∀ fuel r pos S, r ≤ fuel → coherent d v S →
      (bytes_ok d v pos r = true →
        ∃ S', volume_read_loop d v fuel S pos r =
          .ok (pure_bytes d v pos r) S' ∧ coherent d v S') ∧
      (bytes_ok d v pos r = false →
        ∃ S', volume_read_loop d v fuel S pos r = .err S') := by
  have hbs : 0 < block_size v := block_size_pos v hfx hss
  intro fuel
  induction fuel with
  | zero =>
    intro r pos S hrf hco
    match r with
    | 0 =>
      constructor
      · intro _
        exact ⟨S, by rw [vloop_zero_r]; rfl, hco⟩
      · intro hb
        rw [show bytes_ok d v pos 0 = true from rfl] at hb
        cases hb
    | r'+1 => omega
  | succ n ih =>
    intro r pos S hrf hco
    match r with
    | 0 =>
      constructor
      · intro _
        exact ⟨S, by rw [vloop_zero_r]; rfl, hco⟩
      · intro hb
        rw [show bytes_ok d v pos 0 = true from rfl] at hb
        cases hb
    | r'+1 =>
      have hcbs := cache_block_spec d v S (pos / block_size v) hnd hal hco
      have hofs : pos % block_size v < block_size v := Nat.mod_lt _ hbs
      have hch1 : 1 ≤ min (r'+1) (block_size v - pos % block_size v) := by omega
      have hchle : min (r'+1) (block_size v - pos % block_size v) ≤ r'+1 :=
        min_le_left _ _
      have hblocksplit := bytes_ok_split d v pos
        (min (r'+1) (block_size v - pos % block_size v)) (r'+1) hchle
      have hcb_eq : bytes_ok d v pos
          (min (r'+1) (block_size v - pos % block_size v)) =
          block_ok d v (pos / block_size v) := by
        unfold bytes_ok
        cases hblk : block_ok d v (pos / block_size v)
        · cases hall : (List.range
              (min (r'+1) (block_size v - pos % block_size v))).all
              (fun i => block_ok d v ((pos + i) / block_size v))
          · rfl
          · exfalso
            have h0 := (List.all_eq_true.mp hall) 0
              (List.mem_range.mpr (by omega))
            rw [Nat.add_zero, hblk] at h0
            cases h0
        · apply List.all_eq_true.mpr
          intro i hi
          rw [List.mem_range] at hi
          rw [chunk_same_block (block_size v) pos i hbs (by omega), hblk]
      cases hblk : block_ok d v (pos / block_size v)
      · obtain ⟨S1, hcb⟩ := hcbs.2 hblk
        rw [hblk] at hcb_eq
        constructor
        · intro hball
          exfalso
          rw [hblocksplit, hcb_eq] at hball
          simp at hball
        · intro _
          rw [vloop_step2, hcb]
          exact ⟨S1, rfl⟩
      · obtain ⟨S1, hcb, hcoS1, hcache⟩ := hcbs.1 hblk
        rw [hblk] at hcb_eq
        have ihrec := ih (r' + 1 - min (r'+1) (block_size v - pos % block_size v))
          (pos + min (r'+1) (block_size v - pos % block_size v)) S1
          (by omega) hcoS1
        have hbyteseq : (List.range
            (min (r'+1) (block_size v - pos % block_size v))).map
            (fun i => S1.cache (pos % block_size v + i)) =
            pure_bytes d v pos
              (min (r'+1) (block_size v - pos % block_size v)) := by
          unfold pure_bytes
          apply List.map_congr_left
          intro i hi
          rw [List.mem_range] at hi
          have hlt : pos % block_size v + i < block_size v := by omega
          rw [hcache _ hlt]
          congr 1
          rw [block_sector_bytes v hal hss]
          have hmod := Nat.div_add_mod pos (block_size v)
          generalize hA : block_size v * (pos / block_size v) = A at hmod ⊢
          generalize hB : pos % block_size v = B at hmod ⊢
          omega
        constructor
        · intro hball
          rw [hblocksplit, hcb_eq, Bool.true_and] at hball
          obtain ⟨S2, hrec, hcoS2⟩ := ihrec.1 hball
          rw [vloop_step2, hcb]
          simp only
          rw [if_neg (by omega), hrec]
          refine ⟨S2, ?_, hcoS2⟩
          show VRes.ok ((List.range (min (r'+1) (block_size v - pos % block_size v))).map
              (fun i => S1.cache (pos % block_size v + i)) ++
              pure_bytes d v (pos + min (r'+1) (block_size v - pos % block_size v))
                (r' + 1 - min (r'+1) (block_size v - pos % block_size v))) S2 =
            VRes.ok (pure_bytes d v pos (r'+1)) S2
          rw [hbyteseq, ← pure_bytes_split d v pos _ _ hchle]
        · intro hbf
          rw [hblocksplit, hcb_eq, Bool.true_and] at hbf
          obtain ⟨S2, hrec⟩ := ihrec.2 hbf
          rw [vloop_step2, hcb]
          simp only
          rw [if_neg (by omega), hrec]
          exact ⟨S2, rfl⟩

theorem vloop_ok_length (d : Disk) (v : Volume) :
    ∀ fuel r pos S bytes S',
      volume_read_loop d v fuel S pos r = .ok bytes S' → bytes.length = r := by
  intro fuel
  induction fuel with
  | zero =>
    intro r pos S bytes S' h
    match r with
    | 0 => rw [vloop_zero_r] at h; cases h; rfl
    | r'+1 => cases h
  | succ n ih =>
    intro r pos S bytes S' h
    match r with
    | 0 => rw [vloop_zero_r] at h; cases h; rfl
    | r'+1 =>
      rw [vloop_step] at h
      match hcb : cache_block d v S
          (pos / (v.fastest_xfer_size * v.sector_size)) with
      | (false, S1) => rw [hcb] at h; cases h
      | (true, S1) =>
        rw [hcb] at h
        simp only at h
        by_cases hch : min (r'+1)
            ((v.fastest_xfer_size * v.sector_size) -
              pos % (v.fastest_xfer_size * v.sector_size)) = 0
        · rw [if_pos hch] at h; cases h
        · rw [if_neg hch] at h
          match hres : volume_read_loop d v n S1
              (pos + min (r'+1)
                ((v.fastest_xfer_size * v.sector_size) -
                  pos % (v.fastest_xfer_size * v.sector_size)))
              (r' + 1 - min (r'+1)
                ((v.fastest_xfer_size * v.sector_size) -
                  pos % (v.fastest_xfer_size * v.sector_size))) with
          | .fatal => rw [hres] at h; cases h
          | .err S2 => rw [hres] at h; cases h
          | .ok rest S2 =>
            rw [hres] at h
            cases h
            have hlen := ih _ _ _ _ _ hres
            simp only [List.length_append, List.length_map, List.length_range]
            omega

theorem volume_read_no_fatal (d : Disk) (v : Volume) (S : CacheState)
    (loc count : Nat) (hpxe : v.pxe = false)
    (hbs : 0 < v.fastest_xfer_size * v.sector_size) :
    volume_read d v S loc count ≠ .fatal := by
  unfold volume_read
  rw [if_neg (by simp [hpxe])]
  by_cases hk : v.sect_count ≠ UNKNOWN_SIZE
  · rw [if_pos hk]
    by_cases h1 : U64 ≤ v.sect_count * v.sector_size
    · rw [if_pos h1]; intro h; cases h
    · rw [if_neg h1]
      by_cases h2 : v.sect_count * v.sector_size ≤ loc ∨
          v.sect_count * v.sector_size - loc < count
      · rw [if_pos h2]; intro h; cases h
      · rw [if_neg h2]
        exact vloop_no_fatal d v hbs count count loc S le_rfl
  · rw [if_neg hk]
    exact vloop_no_fatal d v hbs count count loc S le_rfl

theorem volume_read_ok_length (d : Disk) (v : Volume) (S : CacheState)
    (loc count : Nat) (bytes : List Nat) (S' : CacheState)
    (h : volume_read d v S loc count = .ok bytes S') : bytes.length = count := by
  unfold volume_read at h
  by_cases hp : v.pxe = true
  · rw [if_pos hp] at h; cases h
  · rw [if_neg hp] at h
    by_cases hk : v.sect_count ≠ UNKNOWN_SIZE
    · rw [if_pos hk] at h
      by_cases h1 : U64 ≤ v.sect_count * v.sector_size
      · rw [if_pos h1] at h; cases h
      · rw [if_neg h1] at h
        by_cases h2 : v.sect_count * v.sector_size ≤ loc ∨
            v.sect_count * v.sector_size - loc < count
        · rw [if_pos h2] at h; cases h
        · rw [if_neg h2] at h
          exact vloop_ok_length d v count count loc S bytes S' h
    · rw [if_neg hk] at h
      exact vloop_ok_length d v count count loc S bytes S' h

theorem vloop_ref_core (d : Disk) (v : Volume) (S : CacheState) (loc count : Nat)
    (hnd : nondegrading d v) (hss : sector_size_ok v)
    (hfx : 1 ≤ v.fastest_xfer_size) (hco : coherent d v S) :
    (volume_read_loop d v count S loc count).val = ref_read_core d v loc count ∧
    ∀ bytes S', volume_read_loop d v count S loc count = .ok bytes S' →
      coherent d v S' := by
  have hbs : 0 < block_size v := block_size_pos v hfx hss
  by_cases hc0 : count = 0
  · subst hc0
    rw [vloop_zero_r]
    constructor
    · rfl
    · intro bytes S' h
      cases h
      exact hco
  · cases halb : aligned v
    · have hnw : ¬(S.cache_status = true ∧ ∀ i, i < count →
          (loc + i) / (v.fastest_xfer_size * v.sector_size) = S.cached_block) := by
        rintro ⟨hcs, _⟩
        have := (hco hcs).1
        rw [halb] at this
        cases this
      obtain ⟨S', hS'⟩ := gen_fail d v (cold_fails_of_misaligned d v halb) hbs
        count count loc S (by omega) le_rfl hnw
      rw [hS']
      constructor
      · unfold ref_read_core
        rw [if_neg hc0, if_pos halb]
        rfl
      · intro bytes S'' h
        cases h
    · have hsp := vloop_spec d v hnd halb hss hfx count count loc S le_rfl hco
      cases hbo : bytes_ok d v loc count
      · obtain ⟨S', hS'⟩ := hsp.2 hbo
        rw [hS']
        constructor
        · unfold ref_read_core
          rw [if_neg hc0, if_neg (by rw [halb]; simp), if_pos hbo]
          rfl
        · intro bytes S'' h
          cases h
      · obtain ⟨S', hS', hco'⟩ := hsp.1 hbo
        rw [hS']
        constructor
        · unfold ref_read_core
          rw [if_neg hc0, if_neg (by rw [halb]; simp), if_neg (by rw [hbo]; simp)]
          rfl
        · intro bytes S'' h
          cases h
          exact hco'

theorem volume_read_refines (d : Disk) (v : Volume) (S : CacheState)
    (loc count : Nat) (hpxe : v.pxe = false) (hnd : nondegrading d v)
    (hss : sector_size_ok v) (hfx : 1 ≤ v.fastest_xfer_size)
    (hco : coherent d v S) :
    (volume_read d v S loc count).val = ref_read d v loc count ∧
    ∀ bytes S', volume_read d v S loc count = .ok bytes S' →
      coherent d v S' := by
  unfold volume_read ref_read
  rw [if_neg (by simp [hpxe])]
  by_cases hk : v.sect_count ≠ UNKNOWN_SIZE
  · rw [if_pos hk, if_pos hk]
    by_cases h1 : U64 ≤ v.sect_count * v.sector_size
    · rw [if_pos h1, if_pos h1]
      exact ⟨rfl, by intro bytes S' h; cases h⟩
    · rw [if_neg h1, if_neg h1]
      by_cases h2 : v.sect_count * v.sector_size ≤ loc ∨
          v.sect_count * v.sector_size - loc < count
      · rw [if_pos h2, if_pos h2]
        exact ⟨rfl, by intro bytes S' h; cases h⟩
      · rw [if_neg h2, if_neg h2]
        exact vloop_ref_core d v S loc count hnd hss hfx hco
  · rw [if_neg hk, if_neg hk]
    exact vloop_ref_core d v S loc count hnd hss hfx hco

/-- A request range the volume's size check admits. -/
def range_admissible (v : Volume) (loc count : Nat) : Prop :=
  v.sect_count = UNKNOWN_SIZE ∨
    (v.sect_count * v.sector_size < U64 ∧
      loc + count ≤ v.sect_count * v.sector_size)

theorem ref_read_in_range (d : Disk) (v : Volume) (loc count : Nat)
    (hadm : range_admissible v loc count) (hc : 1 ≤ count) :
    ref_read d v loc count = ref_read_core d v loc count := by
  unfold ref_read
  by_cases hk : v.sect_count = UNKNOWN_SIZE
  · rw [if_neg (by simp [hk])]
  · rcases hadm with h | ⟨hov, hle⟩
    · exact absurd h hk
    · rw [if_pos hk, if_neg (by omega), if_neg (by omega)]

theorem bytes_ok_one (d : Disk) (v : Volume) (loc : Nat) :
    bytes_ok d v loc 1 = block_ok d v (loc / block_size v) := by
  unfold bytes_ok
  rw [show List.range 1 = [0] from rfl]
  simp

theorem pure_bytes_one (d : Disk) (v : Volume) (loc : Nat) :
    pure_bytes d v loc 1 = [d.data (v.first_sect * 512 + loc)] := by
  unfold pure_bytes
  rw [show List.range 1 = [0] from rfl]
  simp

theorem ref_core_cons (d : Disk) (v : Volume) (loc n : Nat) (hn : 1 ≤ n) :
    ref_read_core d v loc (n+1) =
      match ref_read_core d v loc 1, ref_read_core d v (loc+1) n with
      | some b1, some rest => some (b1 ++ rest)
      | _, _ => none := by
  have hsplit := bytes_ok_split d v loc 1 (n+1) (by omega)
  have hpure := pure_bytes_split d v loc 1 (n+1) (by omega)
  rw [show n + 1 - 1 = n by omega] at hsplit hpure
  have hn1 : ¬ (n + 1 = 0) := by omega
  have h11 : ¬ ((1:Nat) = 0) := by omega
  have hnn : ¬ (n = 0) := by omega
  unfold ref_read_core
  cases hal : aligned v
  · simp [hn1, h11, hnn]
  · cases h1 : bytes_ok d v loc 1
    · simp [hn1, h11, hnn, hsplit, h1]
    · cases h2 : bytes_ok d v (loc+1) n
      · simp [hn1, h11, hnn, hsplit, h1, h2]
      · simp [hn1, h11, hnn, hsplit, h1, h2, hpure]

theorem byte_reads_refines (d : Disk) (v : Volume) (hpxe : v.pxe = false)
    (hnd : nondegrading d v) (hss : sector_size_ok v)
    (hfx : 1 ≤ v.fastest_xfer_size) :
    ∀ count loc S, coherent d v S → 1 ≤ count →
      range_admissible v loc count →
      (byte_reads d v S loc count).val = ref_read_core d v loc count := by
  have hbs : 0 < block_size v := block_size_pos v hfx hss
  intro count
  induction count with
  | zero => intro loc S _ h1 _; omega
  | succ n ih =>
    intro loc S hco _ hadm
    have hone := volume_read_refines d v S loc 1 hpxe hnd hss hfx hco
    have hadm1 : range_admissible v loc 1 := by
      rcases hadm with h | h
      · exact Or.inl h
      · exact Or.inr ⟨h.1, by omega⟩
    have hr1 : ref_read d v loc 1 = ref_read_core d v loc 1 :=
      ref_read_in_range d v loc 1 hadm1 le_rfl
    unfold byte_reads
    match hvr : volume_read d v S loc 1 with
    | .fatal =>
      exact absurd hvr (volume_read_no_fatal d v S loc 1 hpxe hbs)
    | .err S1 =>
      have hcore1 : ref_read_core d v loc 1 = none := by
        rw [← hr1, ← hone.1, hvr]; rfl
      by_cases hn0 : n = 0
      · subst hn0
        rw [show (0:Nat) + 1 = 1 from rfl, hcore1]
        rfl
      · rw [ref_core_cons d v loc n (by omega), hcore1]
        rfl
    | .ok b1 S1 =>
      have hco1 := hone.2 b1 S1 hvr
      have hval1 : ref_read_core d v loc 1 = some b1 := by
        rw [← hr1, ← hone.1, hvr]; rfl
      by_cases hn0 : n = 0
      · subst hn0
        show (match byte_reads d v S1 (loc+1) 0 with
          | .ok rest S2 => VRes.ok (b1 ++ rest) S2
          | e => e).val = ref_read_core d v loc 1
        rw [show byte_reads d v S1 (loc+1) 0 = .ok [] S1 from rfl]
        rw [hval1]
        simp [VRes.val]
      · have hadmn : range_admissible v (loc+1) n := by
          rcases hadm with h | h
          · exact Or.inl h
          · exact Or.inr ⟨h.1, by omega⟩
        have ihn := ih (loc+1) S1 hco1 (by omega) hadmn
        rw [ref_core_cons d v loc n (by omega), hval1]
        show (match byte_reads d v S1 (loc+1) n with
          | VRes.ok rest S2 => VRes.ok (b1 ++ rest) S2
          | e => e).val =
          (match some b1, ref_read_core d v (loc+1) n with
           | some b1, some rest => some (b1 ++ rest)
           | _, _ => none)
        rw [← ihn]
        cases hbr : byte_reads d v S1 (loc+1) n <;> rfl

/-! ## Claim C1 -/

/-- C1, counterexample.  As stated the claim quantifies over every starting
cache state including the cache contents; a cache that is marked ready for
block 0 but holds bytes that are not on the disk is served verbatim by
`volume_read`, so the cached reader is not observationally equal to a
cacheless byte-wise reader for that starting state, even for a 1-byte
in-range request. -/
theorem claim_C1_counterexample :
    0 + 1 ≤ demo_volume.sect_count * demo_volume.sector_size ∧
    (volume_read demo_disk demo_volume poisoned_cache 0 1).val = some [99] ∧
    (byte_reads demo_disk demo_volume cold_cache 0 1).val = some [0] ∧
    (volume_read demo_disk demo_volume poisoned_cache 0 1).val ≠
      (byte_reads demo_disk demo_volume cold_cache 0 1).val := by
  refine ⟨by decide, ?_, ?_, ?_⟩ <;> decide

/-- C1 (amended): for every volume and in-range `(loc, count)` with
`count ≥ 1`, the bytes delivered by one `volume_read` equal the bytes
delivered by `count` successive 1-byte `volume_read` calls, and both equal
the cacheless byte-wise reference reader — for every *coherent* starting
cache state (one whose ready contents genuinely mirror the disk), rather
than for arbitrary cache contents, and on a disk that does not degrade
full-size transfers. -/
theorem claim_C1 (d : Disk) (v : Volume) (S S' : CacheState) (loc count : Nat)
    (hpxe : v.pxe = false) (hss : sector_size_ok v)
    (hfx : 1 ≤ v.fastest_xfer_size) (hnd : nondegrading d v)
    (hcoS : coherent d v S) (hcoS' : coherent d v S')
    (hc : 1 ≤ count) (hadm : range_admissible v loc count) :
    (volume_read d v S loc count).val = ref_read d v loc count ∧
    (byte_reads d v S' loc count).val = ref_read d v loc count := by
  constructor
  · exact (volume_read_refines d v S loc count hpxe hnd hss hfx hcoS).1
  · rw [ref_read_in_range d v loc count hadm hc]
    exact byte_reads_refines d v hpxe hnd hss hfx count loc S' hcoS' hc hadm

/-- C1, witness: the amended claim applied to the demo disk and volume with
two cold caches and the request `(10, 4)`. -/
theorem claim_C1_witness :
    (volume_read demo_disk demo_volume cold_cache 10 4).val =
      ref_read demo_disk demo_volume 10 4 ∧
    (byte_reads demo_disk demo_volume cold_cache 10 4).val =
      ref_read demo_disk demo_volume 10 4 :=
  claim_C1 demo_disk demo_volume cold_cache cold_cache 10 4 rfl
    (Or.inl rfl) (by decide) (fun s h => nomatch h)
    (fun h => absurd h (by decide)) (fun h => absurd h (by decide))
    (by decide) (Or.inr (by decide))

/-! ## Claim C2 -/

/-- C2, counterexample.  The claim states `volume_read` returns false
whenever `first_sect` is not a multiple of `sector_size / 512`; but a
request of zero bytes never calls `cache_block`, and a warm cache hit
returns before the alignment check, so both succeed on a misaligned
volume. -/
theorem claim_C2_counterexample :
    misaligned_volume.first_sect % (misaligned_volume.sector_size / 512) ≠ 0 ∧
    (volume_read demo_disk misaligned_volume cold_cache 0 0).val = some [] ∧
    (volume_read demo_disk misaligned_volume poisoned_cache 0 1).val =
      some [99] := by
  refine ⟨by decide, ?_, ?_⟩ <;> decide

/-- C2 (amended): for a volume of known size, (1) a successful
`volume_read` delivered exactly `count` bytes; (2) the request is rejected
whenever `sect_count × sector_size` overflows 64 bits (the multiplication
is checked, not wrapped) or the range reaches past it; (3) a misaligned
`first_sect` forces failure whenever at least one requested byte lies in a
block not already held warm in the cache (a zero-length request or a
request served entirely from the warm cache succeeds without the alignment
check); (4) likewise, when the disk reports `NO_MEDIA`, any request needing
a block beyond the warm cache fails. -/
theorem claim_C2 (d : Disk) (v : Volume) (S : CacheState) (loc count : Nat)
    (hpxe : v.pxe = false) (hbs : 0 < v.fastest_xfer_size * v.sector_size) :
    (∀ bytes S', volume_read d v S loc count = .ok bytes S' →
      bytes.length = count) ∧
    (v.sect_count ≠ UNKNOWN_SIZE →
      (U64 ≤ v.sect_count * v.sector_size ∨
        v.sect_count * v.sector_size ≤ loc ∨
        v.sect_count * v.sector_size - loc < count) →
      volume_read d v S loc count = .err S) ∧
    (aligned v = false → 1 ≤ count →
      ¬(S.cache_status = true ∧ ∀ i, i < count →
        (loc + i) / (v.fastest_xfer_size * v.sector_size) = S.cached_block) →
      ∃ S', volume_read d v S loc count = .err S') ∧
    ((∀ s x, d.status s x = DiskStatus.noMedia) → 1 ≤ count →
      ¬(S.cache_status = true ∧ ∀ i, i < count →
        (loc + i) / (v.fastest_xfer_size * v.sector_size) = S.cached_block) →
      ∃ S', volume_read d v S loc count = .err S') := by
  refine ⟨?_, ?_, ?_, ?_⟩
  · intro bytes S' h
    exact volume_read_ok_length d v S loc count bytes S' h
  · intro hk hbad
    unfold volume_read
    rw [if_neg (by simp [hpxe]), if_pos hk]
    by_cases h1 : U64 ≤ v.sect_count * v.sector_size
    · rw [if_pos h1]
    · rw [if_neg h1, if_pos (by omega)]
  · intro hal hc hnw
    unfold volume_read
    rw [if_neg (by simp [hpxe])]
    by_cases hk : v.sect_count ≠ UNKNOWN_SIZE
    · rw [if_pos hk]
      by_cases h1 : U64 ≤ v.sect_count * v.sector_size
      · rw [if_pos h1]; exact ⟨S, rfl⟩
      · rw [if_neg h1]
        by_cases h2 : v.sect_count * v.sector_size ≤ loc ∨
            v.sect_count * v.sector_size - loc < count
        · rw [if_pos h2]; exact ⟨S, rfl⟩
        · rw [if_neg h2]
          exact gen_fail d v (cold_fails_of_misaligned d v hal) hbs
            count count loc S hc le_rfl hnw
    · rw [if_neg hk]
      exact gen_fail d v (cold_fails_of_misaligned d v hal) hbs
        count count loc S hc le_rfl hnw
  · intro hnm hc hnw
    unfold volume_read
    rw [if_neg (by simp [hpxe])]
    by_cases hk : v.sect_count ≠ UNKNOWN_SIZE
    · rw [if_pos hk]
      by_cases h1 : U64 ≤ v.sect_count * v.sector_size
      · rw [if_pos h1]; exact ⟨S, rfl⟩
      · rw [if_neg h1]
        by_cases h2 : v.sect_count * v.sector_size ≤ loc ∨
            v.sect_count * v.sector_size - loc < count
        · rw [if_pos h2]; exact ⟨S, rfl⟩
        · rw [if_neg h2]
          exact gen_fail d v (cold_fails_of_no_media d v hnm) hbs
            count count loc S hc le_rfl hnw
    · rw [if_neg hk]
      exact gen_fail d v (cold_fails_of_no_media d v hnm) hbs
        count count loc S hc le_rfl hnw

/-- C2, witness: the amended claim applied to the no-media disk and the
misaligned volume, extracting the misalignment failure for a cold cache. -/
theorem claim_C2_witness :
    ∃ S', volume_read no_media_disk misaligned_volume cold_cache 0 3 =
      .err S' :=
  (claim_C2 no_media_disk misaligned_volume cold_cache 0 3 rfl
    (by decide)).2.2.1 (by decide) (by decide)
    (fun h => absurd h.1 (by decide))

/-! ## Claim C10 -/

/-- C10: for a volume whose `sect_count` is the all-ones unknown-size
sentinel, `volume_read` performs no range check at all — it is literally the
bare copy loop, so no `(loc, count)` is ever rejected as exceeding the
volume size and only the alignment check and the disk reads decide
success. -/
theorem claim_C10 (d : Disk) (v : Volume) (S : CacheState) (loc count : Nat)
    (hpxe : v.pxe = false) (hsent : v.sect_count = UNKNOWN_SIZE) :
    volume_read d v S loc count = volume_read_loop d v count S loc count := by
  unfold volume_read
  rw [if_neg (by simp [hpxe]), if_neg (by simp [hsent])]

/-- C10, witness: a terabyte-offset read on the sentinel volume is not
range-rejected and succeeds. -/
theorem claim_C10_witness :
    volume_read demo_disk sentinel_volume cold_cache 1000000000000 3 =
      volume_read_loop demo_disk sentinel_volume 3 cold_cache 1000000000000 3 ∧
    (volume_read demo_disk sentinel_volume cold_cache 1000000000000 3).val =
      some [5, 6, 7] :=
  ⟨claim_C10 demo_disk sentinel_volume cold_cache 1000000000000 3 rfl rfl,
    by decide⟩

/-! ## Claim C3 -/

theorem gpt_entry_to_part_cases (v : Volume) (lb_size partition : Nat)
    (e : GptEntry) :
    ((e.unique_partition_guid = zero_guid ∨ e.ending_lba < e.starting_lba ∨
      U64 ≤ e.starting_lba * (lb_size / 512) ∨
      e.ending_lba - e.starting_lba = U64 - 1 ∨
      U64 ≤ (e.ending_lba - e.starting_lba + 1) * (lb_size / 512)) →
      gpt_entry_to_part v lb_size partition e = .noPartition) ∧
    (¬(e.unique_partition_guid = zero_guid ∨ e.ending_lba < e.starting_lba ∨
      U64 ≤ e.starting_lba * (lb_size / 512) ∨
      e.ending_lba - e.starting_lba = U64 - 1 ∨
      U64 ≤ (e.ending_lba - e.starting_lba + 1) * (lb_size / 512)) →
      gpt_entry_to_part v lb_size partition e = .okPart
        { pxe := false
          sector_size := v.sector_size
          fastest_xfer_size := v.fastest_xfer_size
          first_sect := e.starting_lba * (lb_size / 512)
          sect_count := (e.ending_lba - e.starting_lba + 1) * (lb_size / 512)
          index := v.index
          is_optical := v.is_optical
          partition := partition + 1 }) := by
  unfold gpt_entry_to_part
  by_cases c1 : e.unique_partition_guid = zero_guid
  · rw [if_pos c1]
    exact ⟨fun _ => rfl, fun hn => absurd (Or.inl c1) hn⟩
  · rw [if_neg c1]
    by_cases c2 : e.ending_lba < e.starting_lba
    · rw [if_pos c2]
      exact ⟨fun _ => rfl, fun hn => absurd (Or.inr (Or.inl c2)) hn⟩
    · rw [if_neg c2]
      by_cases c3 : U64 ≤ e.starting_lba * (lb_size / 512)
      · rw [if_pos c3]
        exact ⟨fun _ => rfl, fun hn => absurd (Or.inr (Or.inr (Or.inl c3))) hn⟩
      · rw [if_neg c3]
        by_cases c4 : e.ending_lba - e.starting_lba = U64 - 1
        · rw [if_pos c4]
          exact ⟨fun _ => rfl,
            fun hn => absurd (Or.inr (Or.inr (Or.inr (Or.inl c4)))) hn⟩
        · rw [if_neg c4]
          by_cases c5 : U64 ≤ (e.ending_lba - e.starting_lba + 1) * (lb_size / 512)
          · rw [if_pos c5]
            exact ⟨fun _ => rfl,
              fun hn => absurd (Or.inr (Or.inr (Or.inr (Or.inr c5)))) hn⟩
          · rw [if_neg c5]
            refine ⟨fun hb => ?_, fun _ => rfl⟩
            rcases hb with h | h | h | h | h
            · exact absurd h c1
            · exact absurd h c2
            · exact absurd h c3
            · exact absurd h c4
            · exact absurd h c5

/-- C3: once the GPT header probe has succeeded (valid signature and
revision, index inside the table, entry size and offsets validated) and the
entry bytes were read, `gpt_get_part` returns `NO_PARTITION` with no child
when the entry has a zero unique GUID, inverted geometry, or any
LBA-to-512-unit conversion overflowing 64 bits; otherwise it produces
exactly the child volume with `partition = index + 1`,
`first_sect = starting_lba × (lb_size/512)`,
`sect_count = (ending_lba − starting_lba + 1) × (lb_size/512)`, transport
fields copied from the parent, and `part_guid` equal to the entry's unique
partition GUID. -/
theorem claim_C3 (d : Disk) (v : Volume) (S : CacheState) (partition : Nat)
    (h : GptHeader) (lb_size : Nat) (b : List Nat) (e : GptEntry)
    (he : e = parse_gpt_entry b)
    (hpre : ∃ S1, gpt_read_header d v S = some (some (h, lb_size), S1) ∧
      h.revision = 0x00010000 ∧ partition < h.number_of_partition_entries ∧
      128 ≤ h.size_of_partition_entry ∧
      h.partition_entry_lba * lb_size < U64 ∧
      h.partition_entry_lba * lb_size + partition * h.size_of_partition_entry < U64 ∧
      ∃ S2, volume_read d v S1
        (h.partition_entry_lba * lb_size + partition * h.size_of_partition_entry)
        128 = .ok b S2) :
    ((e.unique_partition_guid = zero_guid ∨ e.ending_lba < e.starting_lba ∨
      U64 ≤ e.starting_lba * (lb_size / 512) ∨
      e.ending_lba - e.starting_lba = U64 - 1 ∨
      U64 ≤ (e.ending_lba - e.starting_lba + 1) * (lb_size / 512)) →
      part_res (gpt_get_part d v S partition) = some .noPartition) ∧
    (¬(e.unique_partition_guid = zero_guid ∨ e.ending_lba < e.starting_lba ∨
      U64 ≤ e.starting_lba * (lb_size / 512) ∨
      e.ending_lba - e.starting_lba = U64 - 1 ∨
      U64 ≤ (e.ending_lba - e.starting_lba + 1) * (lb_size / 512)) →
      part_res (gpt_get_part d v S partition) = some (.okPart
        { pxe := false
          sector_size := v.sector_size
          fastest_xfer_size := v.fastest_xfer_size
          first_sect := e.starting_lba * (lb_size / 512)
          sect_count := (e.ending_lba - e.starting_lba + 1) * (lb_size / 512)
          index := v.index
          is_optical := v.is_optical
          partition := partition + 1 }) ∧
      gpt_part_guid e = e.unique_partition_guid) := by
  obtain ⟨S1, hh, hrev, hidx, hesz, hov1, hov2, S2, hread⟩ := hpre
  have hglue : gpt_get_part d v S partition =
      some (gpt_entry_to_part v lb_size partition e, S2) := by
    unfold gpt_get_part
    rw [hh]
    simp only [ocase_some]
    rw [if_neg (by simp [hrev]), if_neg (by omega), if_neg (by omega),
      if_neg (by omega), if_neg (by omega), hread]
    simp only [vcase_ok]
    rw [he]
  have hcases := gpt_entry_to_part_cases v lb_size partition e
  constructor
  · intro hbad
    rw [hglue, hcases.1 hbad]
    rfl
  · intro hgood
    refine ⟨?_, rfl⟩
    rw [hglue, hcases.2 hgood]
    rfl

/-- C3, witness: the claim applied to `gpt_disk`, producing the child
volume `[2048, 4096)` for partition index 0. -/
theorem claim_C3_witness :
    part_res (gpt_get_part gpt_disk gpt_volume cold_cache 0) = some (.okPart
      { pxe := false
        sector_size := 512
        fastest_xfer_size := 1
        first_sect := 2048
        sect_count := 2048
        index := 0
        is_optical := false
        partition := 1 }) := by
  have h := claim_C3 gpt_disk gpt_volume cold_cache 0 gpt_disk_header 512 _ _
    rfl ⟨_, rfl, by decide, by decide, by decide, by decide, by decide, _, rfl⟩
  exact (h.2 (by decide)).1

/-! ## Claim C4 -/

theorem vr_not_fatal {d : Disk} {v : Volume} {S : CacheState}
    {loc count : Nat} (hpxe : v.pxe = false)
    (hbs : 0 < v.fastest_xfer_size * v.sector_size)
    (h : volume_read d v S loc count = .fatal) : False :=
  volume_read_no_fatal d v S loc count hpxe hbs h

theorem gpt_header_4096_total (d : Disk) (v : Volume) (S : CacheState)
    (hpxe : v.pxe = false) (hbs : 0 < v.fastest_xfer_size * v.sector_size) :
    gpt_header_4096 d v S ≠ none := by
  unfold gpt_header_4096
  cases h : volume_read d v S 4096 92 with
  | fatal => exact (vr_not_fatal hpxe hbs h).elim
  | err S1 => simp
  | ok b S1 =>
    simp only [vcase_ok]
    split <;> simp

theorem gpt_read_header_total (d : Disk) (v : Volume) (S : CacheState)
    (hpxe : v.pxe = false) (hbs : 0 < v.fastest_xfer_size * v.sector_size) :
    gpt_read_header d v S ≠ none := by
  unfold gpt_read_header
  cases h : volume_read d v S 512 92 with
  | fatal => exact (vr_not_fatal hpxe hbs h).elim
  | err S1 =>
    simp only [vcase_err]
    exact gpt_header_4096_total d v S1 hpxe hbs
  | ok b S1 =>
    simp only [vcase_ok]
    split
    · simp
    · exact gpt_header_4096_total d v S1 hpxe hbs

theorem gpt_get_part_total (d : Disk) (v : Volume) (S : CacheState)
    (partition : Nat) (hpxe : v.pxe = false)
    (hbs : 0 < v.fastest_xfer_size * v.sector_size) :
    gpt_get_part d v S partition ≠ none := by
  unfold gpt_get_part
  cases hh : gpt_read_header d v S with
  | none => exact absurd hh (gpt_read_header_total d v S hpxe hbs)
  | some qS =>
    simp only [ocase_some]
    cases hq : qS.1 with
    | none => simp
    | some hl =>
      simp only [ocase_some]
      split
      · simp
      split
      · simp
      split
      · simp
      split
      · simp
      split
      · simp
      cases hv : volume_read d v qS.2
          (hl.1.partition_entry_lba * hl.2 +
            partition * hl.1.size_of_partition_entry) 128 with
      | fatal => exact (vr_not_fatal hpxe hbs hv).elim
      | err S2 => simp
      | ok b S2 => simp

theorem mbr_status_probe_total (d : Disk) (v : Volume) (S : CacheState)
    (off : Nat) (hpxe : v.pxe = false)
    (hbs : 0 < v.fastest_xfer_size * v.sector_size) :
    mbr_status_probe d v S off ≠ none := by
  unfold mbr_status_probe
  cases h : volume_read d v S off 1 with
  | fatal => exact (vr_not_fatal hpxe hbs h).elim
  | err S1 => simp
  | ok b S1 =>
    simp only [vcase_ok]
    split <;> simp

theorem mbr_sig_probe_total (d : Disk) (v : Volume) (S : CacheState)
    (off n : Nat) (sig : List Nat) (hpxe : v.pxe = false)
    (hbs : 0 < v.fastest_xfer_size * v.sector_size) :
    mbr_sig_probe d v S off n sig ≠ none := by
  unfold mbr_sig_probe
  cases h : volume_read d v S off n with
  | fatal => exact (vr_not_fatal hpxe hbs h).elim
  | err S1 => simp
  | ok b S1 =>
    simp only [vcase_ok]
    split <;> simp

theorem pchain_total {r : Option (Bool × CacheState)}
    {k : CacheState → Option (Bool × CacheState)} (hr : r ≠ none)
    (hk : ∀ s, k s ≠ none) : pchain r k ≠ none := by
  unfold pchain
  cases r with
  | none => exact absurd rfl hr
  | some fS =>
    simp only [ocase_some]
    split
    · exact hk fS.2
    · simp

theorem is_valid_mbr_total (d : Disk) (v : Volume) (S : CacheState)
    (hpxe : v.pxe = false) (hbs : 0 < v.fastest_xfer_size * v.sector_size) :
    is_valid_mbr d v S ≠ none := by
  unfold is_valid_mbr
  refine pchain_total (mbr_status_probe_total d v S 446 hpxe hbs) fun S1 => ?_
  refine pchain_total (mbr_status_probe_total d v S1 462 hpxe hbs) fun S2 => ?_
  refine pchain_total (mbr_status_probe_total d v S2 478 hpxe hbs) fun S3 => ?_
  refine pchain_total (mbr_status_probe_total d v S3 494 hpxe hbs) fun S4 => ?_
  refine pchain_total (mbr_sig_probe_total d v S4 3 4 sigNTFS hpxe hbs)
    fun S5 => ?_
  refine pchain_total (mbr_sig_probe_total d v S5 54 3 sigFAT hpxe hbs)
    fun S6 => ?_
  refine pchain_total (mbr_sig_probe_total d v S6 82 3 sigFAT hpxe hbs)
    fun S7 => ?_
  refine pchain_total (mbr_sig_probe_total d v S7 3 5 sigFAT32 hpxe hbs)
    fun S8 => ?_
  cases h : volume_read d v S8 1080 2 with
  | fatal => exact (vr_not_fatal hpxe hbs h).elim
  | err S9 => simp
  | ok b S9 =>
    simp only [vcase_ok]
    split <;> simp

theorem ebr_walk_total (d : Disk) (ext : Volume) (hpxe : ext.pxe = false)
    (hbs : 0 < ext.fastest_xfer_size * ext.sector_size) :
    ∀ steps Sx ebr prev isFirst,
      ebr_walk d ext Sx ebr prev isFirst steps ≠ none := by
  intro steps
  induction steps with
  | zero => intro Sx ebr prev isFirst; simp [ebr_walk]
  | succ n ih =>
    intro Sx ebr prev isFirst
    simp only [ebr_walk]
    cases h : volume_read d ext Sx (ebr * 512 + 0x1ce) 16 with
    | fatal => exact (vr_not_fatal hpxe hbs h).elim
    | err S1 => simp
    | ok b S1 =>
      simp only [vcase_ok]
      split
      · simp
      split
      · simp
      split
      · simp
      exact ih _ _ _ _

theorem mbr_get_logical_part_total (d : Disk) (ext : Volume)
    (Sx : CacheState) (partition : Nat) (hpxe : ext.pxe = false)
    (hbs : 0 < ext.fastest_xfer_size * ext.sector_size) :
    mbr_get_logical_part d ext Sx partition ≠ none := by
  unfold mbr_get_logical_part
  split
  · simp
  cases hw : ebr_walk d ext Sx 0 0 true partition with
  | none => exact absurd hw (ebr_walk_total d ext hpxe hbs _ _ _ _ _)
  | some w =>
    simp only [ocase_some]
    cases w with
    | none => simp
    | some eS =>
      simp only [ocase_some]
      cases h : volume_read d ext eS.2 (eS.1 * 512 + 0x1be) 16 with
      | fatal => exact (vr_not_fatal hpxe hbs h).elim
      | err Sz => simp
      | ok b Sz =>
        simp only [vcase_ok]
        split
        · simp
        split
        · simp
        split
        · simp
        split
        · simp
        split <;> simp

theorem mbr_find_extended_total (d : Disk) (v : Volume) (partition : Nat)
    (hpxe : v.pxe = false) (hbs : 0 < v.fastest_xfer_size * v.sector_size) :
    ∀ left S i, mbr_find_extended d v partition S i left ≠ none := by
  intro left
  induction left with
  | zero => intro S i; simp [mbr_find_extended]
  | succ n ih =>
    intro S i
    simp only [mbr_find_extended]
    cases h : volume_read d v S (0x1be + 16 * i) 16 with
    | fatal => exact (vr_not_fatal hpxe hbs h).elim
    | err S1 =>
      simp only [vcase_err]
      exact ih _ _
    | ok b S1 =>
      simp only [vcase_ok]
      split
      · exact ih _ _
      split
      · exact ih _ _
      cases hm : mbr_get_logical_part d
          { pxe := false
            sector_size := v.sector_size
            fastest_xfer_size := v.fastest_xfer_size
            first_sect := (parse_mbr_entry b).fsect
            sect_count := (parse_mbr_entry b).scount
            index := v.index
            is_optical := v.is_optical
            partition := i + 1 }
          { cache_status := false, cached_block := 0, cache := fun _ => 0 }
          (partition - 4) with
      | none => exact absurd hm (mbr_get_logical_part_total d _ _ _ rfl hbs)
      | some rS => simp

theorem mbr_get_part_total (d : Disk) (v : Volume) (S : CacheState)
    (partition : Nat) (hpxe : v.pxe = false)
    (hbs : 0 < v.fastest_xfer_size * v.sector_size) :
    mbr_get_part d v S partition ≠ none := by
  unfold mbr_get_part
  cases hm : is_valid_mbr d v S with
  | none => exact absurd hm (is_valid_mbr_total d v S hpxe hbs)
  | some fS =>
    simp only [ocase_some]
    split
    · split
      · exact mbr_find_extended_total d v partition hpxe hbs 4 fS.2 0
      · cases h : volume_read d v fS.2 (0x1be + 16 * partition) 16 with
        | fatal => exact (vr_not_fatal hpxe hbs h).elim
        | err S2 => simp
        | ok b S2 =>
          simp only [vcase_ok]
          split
          · simp
          split <;> simp
    · simp

/-- C4 (amended): for every disk content, every non-PXE parent volume with a
positive block size and every partition index, `part_get` terminates with
one of the four scanner outcomes and never panics.  (The second half of the
original claim — that an `OK` child's `[first_sect, first_sect+sect_count)`
lies within the parent — is refuted by the counterexample: the produced
geometry is taken from the table entry unchecked.) -/
theorem claim_C4 (d : Disk) (v : Volume) (S : CacheState) (partition : Int)
    (hpxe : v.pxe = false) (hbs : 0 < v.fastest_xfer_size * v.sector_size) :
    ∃ r S', part_get d v S partition = some (r, S') := by
  unfold part_get
  by_cases hneg : partition < 0
  · rw [if_pos hneg]
    exact ⟨.noPartition, S, rfl⟩
  · rw [if_neg hneg]
    cases hg : gpt_get_part d v S partition.toNat with
    | none => exact absurd hg (gpt_get_part_total d v S partition.toNat hpxe hbs)
    | some pr =>
      obtain ⟨r, S1⟩ := pr
      cases r with
      | invalidTable =>
        cases hm : mbr_get_part d v S1 partition.toNat with
        | none => exact absurd hm (mbr_get_part_total d v S1 partition.toNat hpxe hbs)
        | some pr2 =>
          obtain ⟨r2, S2⟩ := pr2
          exact ⟨r2, S2, by simp [hm]⟩
      | okPart c => exact ⟨.okPart c, S1, by simp⟩
      | noPartition => exact ⟨.noPartition, S1, by simp⟩
      | endOfTable => exact ⟨.endOfTable, S1, by simp⟩

/-- C4, counterexample: on a plausible MBR whose first entry claims
`first_sect = 1000000`, `sect_count = 1000`, `part_get` over a 2048-sector
parent returns `OK` with a child whose range `[1000000, 1001000)` lies far
outside the parent's `[0, 2048)` — the containment asserted by the claim is
not checked by the code. -/
theorem claim_C4_counterexample :
    part_res (part_get mbr_disk mbr_volume cold_cache 0) =
      some (.okPart mbr_child) ∧
    mbr_volume.first_sect + mbr_volume.sect_count <
      mbr_child.first_sect + mbr_child.sect_count := by
  constructor
  · decide
  · decide

/-- C4, witness: the amended claim applied to the concrete MBR disk. -/
theorem claim_C4_witness :
    ∃ r S', part_get mbr_disk mbr_volume cold_cache 0 = some (r, S') :=
  claim_C4 mbr_disk mbr_volume cold_cache 0 rfl (by decide)

/-! ## Claims C5 and C9: FAT chain termination and zero-length files -/

theorem sub_one_div_self (m : Nat) : (m - 1) / m = 0 := by
  cases m with
  | zero => rfl
  | succ k => exact Nat.div_eq_of_lt (by omega)

theorem chain_count_cyclic (d : Disk) (c : Fat32Context)
    (P : CacheState → Prop) (f : Nat → Nat) (C : Nat → Prop)
    (hcl : ∀ cl, C cl → 2 ≤ cl ∧ cl ≤ cluster_limit c ∧ C (f cl))
    (hstep : ∀ S cl, P S → C cl →
      ∃ S', read_cluster_from_map d c S cl = .ok (f cl) S' ∧ P S') :
    ∀ fuel S cluster len, P S → C cluster →
      ∃ S', chain_count_loop d c (cluster_limit c) fuel S cluster len = .err S' := by
  intro fuel
  induction fuel with
  | zero => intro S cluster len _ _; exact ⟨S, rfl⟩
  | succ n ih =>
    intro S cluster len hP hC
    obtain ⟨S1, hread, hP1⟩ := hstep S cluster hP hC
    obtain ⟨h2, hlim, hCf⟩ := hcl cluster hC
    obtain ⟨hf2, hflim, _⟩ := hcl (f cluster) hCf
    simp only [chain_count_loop, hread]
    rw [if_neg (by omega)]
    exact ih S1 (f cluster) (len+1) hP1 hCf

theorem chain_count_le (d : Disk) (c : Fat32Context) (limit : Nat) :
    ∀ fuel S cluster len len' S',
      chain_count_loop d c limit fuel S cluster len = .ok len' S' →
      len' ≤ len + fuel := by
  intro fuel
  induction fuel with
  | zero =>
    intro S cluster len len' S' h
    simp [chain_count_loop] at h
  | succ n ih =>
    intro S cluster len len' S' h
    simp only [chain_count_loop] at h
    cases hr : read_cluster_from_map d c S cluster with
    | fatal => simp only [hr] at h; simp at h
    | err S1 => simp only [hr] at h; simp at h
    | ok next S1 =>
      simp only [hr] at h
      split at h
      · cases h
        omega
      · have := ih S1 next (len+1) len' S' h
        omega

theorem chain_build_len (d : Disk) (c : Fat32Context) :
    ∀ n S cluster acc l S',
      chain_build_loop d c n S cluster acc = .ok l S' →
      l.length = acc.length + n := by
  intro n
  induction n with
  | zero =>
    intro S cluster acc l S' h
    cases h
    omega
  | succ k ih =>
    intro S cluster acc l S' h
    simp only [chain_build_loop] at h
    cases hr : read_cluster_from_map d c S cluster with
    | fatal => simp only [hr] at h; simp at h
    | err S1 => simp only [hr] at h; simp at h
    | ok next S1 =>
      simp only [hr] at h
      have := ih S1 next (acc ++ [cluster]) l S' h
      simp only [List.length_append, List.length_cons, List.length_nil] at this
      omega

theorem chain_len_cap (d : Disk) (c : Fat32Context) (S : CacheState)
    (initial : Nat) (chain : List Nat) (S' : CacheState)
    (h : cache_cluster_chain d c S initial = .ok chain S') :
    chain.length ≤ min (cluster_limit c - 1) FAT32_MAX_CHAIN_LENGTH + 1 := by
  simp only [cache_cluster_chain] at h
  split at h
  · simp at h
  · cases hcnt : chain_count_loop d c (cluster_limit c)
        (min (cluster_limit c - 1) FAT32_MAX_CHAIN_LENGTH) S initial 1 with
    | fatal => simp only [hcnt] at h; simp at h
    | err S1 => simp only [hcnt] at h; simp at h
    | ok len S1 =>
      simp only [hcnt] at h
      split at h
      · simp at h
      · have hlen := chain_build_len d c len S1 initial [] chain S' h
        have hle := chain_count_le d c (cluster_limit c) _ S initial 1 len S1 hcnt
        simp only [List.length_nil] at hlen
        omega

theorem cluster_limit_of_type (c : Fat32Context) :
    (c.fstype = 12 → cluster_limit c = 0xfef) ∧
    (c.fstype = 16 → cluster_limit c = 0xffef) ∧
    (c.fstype = 32 → cluster_limit c = 0xfffffef) := by
  refine ⟨fun h => ?_, fun h => ?_, fun h => ?_⟩ <;>
    simp [cluster_limit, h]

theorem cache_chain_cyclic (d : Disk) (c : Fat32Context)
    (P : CacheState → Prop) (f : Nat → Nat) (C : Nat → Prop)
    (S : CacheState) (initial : Nat) (hP : P S) (hinit : C initial)
    (hcl : ∀ cl, C cl → 2 ≤ cl ∧ cl ≤ cluster_limit c ∧ C (f cl))
    (hstep : ∀ S' cl, P S' → C cl →
      ∃ S'', read_cluster_from_map d c S' cl = .ok (f cl) S'' ∧ P S'') :
    ∃ S', cache_cluster_chain d c S initial = .err S' := by
  obtain ⟨h2, hlim, _⟩ := hcl initial hinit
  obtain ⟨S', hcc⟩ := chain_count_cyclic d c P f C hcl hstep
    (min (cluster_limit c - 1) FAT32_MAX_CHAIN_LENGTH) S initial 1 hP hinit
  refine ⟨S', ?_⟩
  simp only [cache_cluster_chain]
  rw [if_neg (by omega)]
  simp only [hcc]

theorem fat32_walk_last (d : Disk) (ci : Bool) (c : Fat32Context) (fuel : Nat)
    (S S1 : CacheState) (remaining : List Nat) (cur_dir : Option DirEnt)
    (e : DirEnt)
    (hcomp : (remaining.takeWhile (fun b => b ≠ 47)).length = remaining.length)
    (hlen : remaining.length < 260)
    (hopen : fat32_open_in d ci c S cur_dir (some remaining) = .ok (.fileEnt e) S1) :
    fat32_walk d ci c (fuel+1) S cur_dir remaining = fat32_make_handle d c S1 e := by
  have hcw : remaining.takeWhile (fun b => b ≠ 47) = remaining :=
    List.IsPrefix.eq_of_length ( List.takeWhile_prefix _) hcomp
  simp only [fat32_walk, hcw]
  rw [if_neg (by omega)]
  simp only [hopen]
  rw [if_neg (by simp)]

theorem fat32_make_handle_err (d : Disk) (c : Fat32Context) (S : CacheState)
    (e : DirEnt) (S1 : CacheState)
    (hchain : cache_cluster_chain d c S
      (e.clus_lo + (if c.fstype = 32 then e.clus_hi * 65536 else 0)) = .err S1)
    (hsz : e.fsize ≠ 0) : fat32_make_handle d c S e = .err S1 := by
  simp only [fat32_make_handle, hchain]
  rw [if_pos hsz]

theorem fat32_make_handle_zero (d : Disk) (c : Fat32Context) (S : CacheState)
    (e : DirEnt) (S1 : CacheState)
    (hchain : cache_cluster_chain d c S
      (e.clus_lo + (if c.fstype = 32 then e.clus_hi * 65536 else 0)) = .err S1)
    (hsz : e.fsize = 0) :
    fat32_make_handle d c S e = .ok
      { first_cluster := e.clus_lo + (if c.fstype = 32 then e.clus_hi * 65536 else 0)
        size_bytes := 0
        size_clusters := 0
        cluster_chain := none
        chain_len := 0 } S1 := by
  simp only [fat32_make_handle, hchain]
  rw [if_neg (by simp [hsz]), hsz, Nat.zero_add, sub_one_div_self]

/-- C5: (a) the end-of-chain threshold is the per-type value 0xFEF / 0xFFEF
/ 0xFFFFFEF; (b) a successfully cached chain never has more than
`min(threshold − 1, 16 Mi) + 1` members, so the walk never follows more than
16 Mi links; (c) whenever the FAT links reachable from the initial cluster
never hit a marker (value < 2 or above the threshold) — in particular for
every cyclic FAT — `cache_cluster_chain` terminates with the `NULL`-model
failure rather than looping; (d) a failed chain makes the final
path-walk step of `fat32_open` return the `NULL` model only for a file of
non-zero recorded size — the amended form of the claim's `open returns
null`, which is refuted unconditionally by the zero-size cyclic-cluster
counterexample. -/
theorem claim_C5 :
    (∀ c : Fat32Context,
      (c.fstype = 12 → cluster_limit c = 0xfef) ∧
      (c.fstype = 16 → cluster_limit c = 0xffef) ∧
      (c.fstype = 32 → cluster_limit c = 0xfffffef)) ∧
    (∀ (d : Disk) (c : Fat32Context) (S : CacheState) (initial : Nat)
       (chain : List Nat) (S' : CacheState),
      cache_cluster_chain d c S initial = .ok chain S' →
      chain.length ≤ min (cluster_limit c - 1) FAT32_MAX_CHAIN_LENGTH + 1 ∧
      chain.length ≤ 16777216 + 1) ∧
    (∀ (d : Disk) (c : Fat32Context) (P : CacheState → Prop) (f : Nat → Nat)
       (C : Nat → Prop) (S : CacheState) (initial : Nat),
      P S → C initial →
      (∀ cl, C cl → 2 ≤ cl ∧ cl ≤ cluster_limit c ∧ C (f cl)) →
      (∀ S' cl, P S' → C cl →
        ∃ S'', read_cluster_from_map d c S' cl = .ok (f cl) S'' ∧ P S'') →
      ∃ S', cache_cluster_chain d c S initial = .err S') ∧
    (∀ (d : Disk) (ci : Bool) (c : Fat32Context) (fuel : Nat)
       (S S1 S2 : CacheState) (remaining : List Nat)
       (cur_dir : Option DirEnt) (e : DirEnt),
      (remaining.takeWhile (fun b => b ≠ 47)).length = remaining.length →
      remaining.length < 260 →
      fat32_open_in d ci c S cur_dir (some remaining) = .ok (.fileEnt e) S1 →
      e.fsize ≠ 0 →
      cache_cluster_chain d c S1
        (e.clus_lo + (if c.fstype = 32 then e.clus_hi * 65536 else 0)) = .err S2 →
      fat32_walk d ci c (fuel+1) S cur_dir remaining = .err S2) := by
  refine ⟨cluster_limit_of_type, ?_, ?_, ?_⟩
  · intro d c S initial chain S' h
    have h1 := chain_len_cap d c S initial chain S' h
    refine ⟨h1, ?_⟩
    have h2 : min (cluster_limit c - 1) FAT32_MAX_CHAIN_LENGTH ≤ 16777216 := by
      unfold FAT32_MAX_CHAIN_LENGTH
      omega
    omega
  · intro d c P f C S initial hP hinit hcl hstep
    exact cache_chain_cyclic d c P f C S initial hP hinit hcl hstep
  · intro d ci c fuel S S1 S2 remaining cur_dir e hcomp hlen hopen hsz hchain
    rw [fat32_walk_last d ci c fuel S S1 remaining cur_dir e hcomp hlen hopen]
    exact fat32_make_handle_err d c S1 e S2 hchain hsz

/-- C5, witness: over `fat12_ctx` with the concrete cyclic FAT
`FAT[3] = 4`, `FAT[4] = 3` held in a warm cache block, following the chain
from cluster 3 fails (returns the `NULL` model) instead of looping. -/
theorem claim_C5_witness :
    ∃ S', cache_cluster_chain demo_disk fat12_ctx cyclic_fat_cache 3 = .err S' :=
  claim_C5.2.2.1 demo_disk fat12_ctx (fun S => S = cyclic_fat_cache)
    (fun cl => if cl = 3 then 4 else 3) (fun cl => cl = 3 ∨ cl = 4)
    cyclic_fat_cache 3 rfl (Or.inl rfl)
    (fun cl hC => by
      rcases hC with h | h <;> subst h
      · exact ⟨by decide, by decide, Or.inr (by decide)⟩
      · exact ⟨by decide, by decide, Or.inl (by decide)⟩)
    (fun S' cl hP hC => by
      subst hP
      rcases hC with h | h <;> subst h
      · exact ⟨cyclic_fat_cache, rfl, rfl⟩
      · exact ⟨cyclic_fat_cache, rfl, rfl⟩)

set_option maxRecDepth 100000 in
/-- C5, counterexample: on `cyclic_zerofile_disk` the FAT holds the cycle
`FAT[3] = 4`, `FAT[4] = 3` and the file `Z` has first cluster 3 — the entry
point of the cycle — with recorded size 0.  `cache_cluster_chain` fails on
the cycle as claimed, but the final path-walk step of `fat32_open` still
returns a non-null handle (size 0, empty chain): a cyclic chain reachable
from a zero-size file's first cluster does not make the open return null,
refuting the unconditional `open returns null` of the original claim. -/
theorem claim_C5_counterexample :
    (∃ S2, cache_cluster_chain cyclic_zerofile_disk fat12_ctx
      cyclic_zf_state 3 = .err S2) ∧
    read_cluster_from_map cyclic_zerofile_disk fat12_ctx cyclic_zf_state 3 =
      .ok 4 cyclic_zf_state ∧
    read_cluster_from_map cyclic_zerofile_disk fat12_ctx cyclic_zf_state 4 =
      .ok 3 cyclic_zf_state ∧
    fat32_open_in cyclic_zerofile_disk false fat12_ctx cold_cache none
      (some [90]) = .ok (.fileEnt cyclic_zf_ent) cyclic_zf_state ∧
    cyclic_zf_ent.fsize = 0 ∧ cyclic_zf_ent.clus_lo = 3 ∧
    ∃ S3, fat32_walk cyclic_zerofile_disk false fat12_ctx 1 cold_cache none
      [90] = .ok
      { first_cluster := 3
        size_bytes := 0
        size_clusters := 0
        cluster_chain := none
        chain_len := 0 } S3 := by
  have hopen : fat32_open_in cyclic_zerofile_disk false fat12_ctx cold_cache none
      (some [90]) = .ok (.fileEnt cyclic_zf_ent) cyclic_zf_state := rfl
  obtain ⟨S2, hchain2⟩ : ∃ S2, cache_cluster_chain cyclic_zerofile_disk fat12_ctx
      cyclic_zf_state 3 = .err S2 :=
    cache_chain_cyclic cyclic_zerofile_disk fat12_ctx
      (fun S => S = cyclic_zf_state) (fun cl => if cl = 3 then 4 else 3)
      (fun cl => cl = 3 ∨ cl = 4) cyclic_zf_state 3 rfl (Or.inl rfl)
      (fun cl hC => by
        rcases hC with h | h <;> subst h
        · exact ⟨by decide, by decide, Or.inr (by decide)⟩
        · exact ⟨by decide, by decide, Or.inl (by decide)⟩)
      (fun S' cl hP hC => by
        subst hP
        rcases hC with h | h <;> subst h
        · exact ⟨cyclic_zf_state, rfl, rfl⟩
        · exact ⟨cyclic_zf_state, rfl, rfl⟩)
  refine ⟨⟨S2, hchain2⟩, rfl, rfl, hopen, rfl, rfl, S2, ?_⟩
  rw [fat32_walk_last cyclic_zerofile_disk false fat12_ctx 0 cold_cache
    cyclic_zf_state [90] none cyclic_zf_ent rfl (by decide) hopen]
  exact fat32_make_handle_zero cyclic_zerofile_disk fat12_ctx cyclic_zf_state
    cyclic_zf_ent S2 hchain2 rfl

/-- C9: when the final path component resolves to a directory entry whose
recorded file size is 0 and whose first cluster yields no cluster chain
(`cache_cluster_chain` fails), the final walk step of `fat32_open` still
returns a handle — with size 0, an absent chain and chain length 0 — while
the same situation with a non-zero recorded size fails the open: the
missing-chain-is-corruption rule applies only to non-empty files. -/
theorem claim_C9 (d : Disk) (ci : Bool) (c : Fat32Context) (fuel : Nat)
    (S S1 S2 : CacheState) (remaining : List Nat) (cur_dir : Option DirEnt)
    (e : DirEnt)
    (hcomp : (remaining.takeWhile (fun b => b ≠ 47)).length = remaining.length)
    (hlen : remaining.length < 260)
    (hopen : fat32_open_in d ci c S cur_dir (some remaining) = .ok (.fileEnt e) S1)
    (hchain : cache_cluster_chain d c S1
      (e.clus_lo + (if c.fstype = 32 then e.clus_hi * 65536 else 0)) = .err S2) :
    (e.fsize = 0 →
      fat32_walk d ci c (fuel+1) S cur_dir remaining = .ok
        { first_cluster := e.clus_lo + (if c.fstype = 32 then e.clus_hi * 65536 else 0)
          size_bytes := 0
          size_clusters := 0
          cluster_chain := none
          chain_len := 0 } S2) ∧
    (e.fsize ≠ 0 →
      fat32_walk d ci c (fuel+1) S cur_dir remaining = .err S2) := by
  constructor
  · intro hsz
    rw [fat32_walk_last d ci c fuel S S1 remaining cur_dir e hcomp hlen hopen]
    exact fat32_make_handle_zero d c S1 e S2 hchain hsz
  · intro hsz
    rw [fat32_walk_last d ci c fuel S S1 remaining cur_dir e hcomp hlen hopen]
    exact fat32_make_handle_err d c S1 e S2 hchain hsz

set_option maxRecDepth 100000 in
/-- C9, witness: opening the zero-length file `Z` of `zerofile_disk` (first
cluster 0, so its chain lookup fails) yields a handle of size 0 with no
chain. -/
theorem claim_C9_witness :
    ∃ S', fat32_walk zerofile_disk false fat12_ctx 1 cold_cache none [90] = .ok
      { first_cluster := 0
        size_bytes := 0
        size_clusters := 0
        cluster_chain := none
        chain_len := 0 } S' :=
  ⟨_, (claim_C9 zerofile_disk false fat12_ctx 0 cold_cache _ _ [90] none _
    rfl (by decide) rfl rfl).1 rfl⟩

/-! ## Claims C6 and C7: ISO9660 name lookup and multi-extent files -/

theorem vres_val_some {α : Type} (r : VRes α) (b : α) (h : r.val = some b) :
    ∃ S, r = .ok b S := by
  cases r with
  | fatal => simp [VRes.val] at h
  | err s => simp [VRes.val] at h
  | ok v s =>
    simp [VRes.val] at h
    exact ⟨s, by rw [h]⟩

/-- C6: (a) one lookup step on a decodable directory entry compares the
loaded name with strict `strcmp` exactly when the name came from a Rock
Ridge `NM` entry and the global case-insensitive flag is clear, and with
`strcasecmp` otherwise, succeeding or moving to the next entry accordingly;
(b) on the concrete entry whose ISO name is `README.TXT;1` and whose SUA
carries `NM` `readme.txt`, the loaded name is the `NM` payload, the lookup
for `readme.txt` succeeds and the lookup for `README.TXT` fails; (c) on the
same entry without a SUA the loaded name is the ISO name with the `;1`
version suffix stripped and the lower-case lookup still succeeds
(case-insensitive fallback). -/
theorem claim_C6 :
    (∀ (ci : Bool) (buf filename : List Nat) (fuel p s : Nat)
       (n : List Nat) (rr : Bool),
      s ≠ 0 → lget buf p ≠ 0 → lget buf p ≤ s → 33 ≤ lget buf p →
      load_name buf p 256 = some (n, rr) →
      iso9660_find_go ci buf filename (fuel+1) p s =
        if (if rr ∧ ci = false then strcmp_eq filename n
            else strcasecmp_eq filename n) then .found p
        else iso9660_find_go ci buf filename fuel
          (p + lget buf p) (s - lget buf p)) ∧
    load_name nm_dirent 0 256 = some (name_readme_lower, true) ∧
    iso9660_find false nm_dirent 61 name_readme_lower = .found 0 ∧
    iso9660_find false nm_dirent 61 name_readme_upper = .notFound ∧
    load_name plain_dirent 0 256 = some (name_readme_upper, false) ∧
    iso9660_find false plain_dirent 45 name_readme_lower = .found 0 := by
  refine ⟨?_, by decide, by decide, by decide, by decide, by decide⟩
  intro ci buf filename fuel p s n rr hs hl0 hls h33 hload
  simp only [iso9660_find_go]
  rw [if_neg hs, if_neg hl0, if_neg (by omega), if_neg (by omega)]
  simp only [hload]

/-- C6, witness: the single-step conjunct applied to the concrete `NM`
entry and the upper-case name, showing the comparison is the strict one and
fails. -/
theorem claim_C6_witness :
    iso9660_find_go false nm_dirent name_readme_upper 2 0 61 = .notFound :=
  (claim_C6.1 false nm_dirent name_readme_upper 1 0 61 name_readme_lower true
    (by decide) (by decide) (by decide) (by decide) (by decide)).trans (by decide)

theorem count_ge (buf : List Nat) (bufEnd : Nat) :
    ∀ fuel e cnt tot, cnt ≤ (extent_count_loop buf bufEnd fuel e cnt tot).1 := by
  intro fuel
  induction fuel with
  | zero => intro e cnt tot; exact Nat.le_refl cnt
  | succ n ih =>
    intro e cnt tot
    simp only [extent_count_loop]
    split
    · exact Nat.le_refl cnt
    · split
      · exact Nat.le_refl cnt
      · split
        · exact Nat.le_succ cnt
        · exact Nat.le_trans (Nat.le_succ cnt) (ih _ _ _)

theorem count_cap (buf : List Nat) (bufEnd : Nat) :
    ∀ fuel e cnt tot, cnt ≤ 65535 →
      (extent_count_loop buf bufEnd fuel e cnt tot).1 ≤ 65536 := by
  intro fuel
  induction fuel with
  | zero => intro e cnt tot h; exact (by omega : cnt ≤ 65536)
  | succ n ih =>
    intro e cnt tot h
    simp only [extent_count_loop]
    split
    · exact (by omega : cnt ≤ 65536)
    · split
      · exact (by omega : cnt ≤ 65536)
      · split
        · exact (by omega : cnt + 1 ≤ 65536)
        · exact ih _ _ _ (by omega)

theorem fill_length (buf : List Nat) (bufEnd : Nat) :
    ∀ n e, (extent_fill_loop buf bufEnd n e).length = n := by
  intro n
  induction n with
  | zero => intro e; rfl
  | succ k ih =>
    intro e
    simp only [extent_fill_loop, List.length_cons]
    by_cases hk : k = 0
    · rw [if_pos hk]
      simp [hk]
    · rw [if_neg hk]
      cases hn : iso9660_next_entry buf bufEnd e with
      | none => simp
      | some e2 => simp [ih e2]

theorem fill_sum_agree (buf : List Nat) (bufEnd : Nat) :
    ∀ fuel e cnt tot,
      extents_total (extent_fill_loop buf bufEnd
          ((extent_count_loop buf bufEnd fuel e cnt tot).1 - cnt + 1) e) + tot =
        le32 buf (e+10) + (extent_count_loop buf bufEnd fuel e cnt tot).2 := by
  intro fuel
  induction fuel with
  | zero =>
    intro e cnt tot
    simp only [extent_count_loop]
    have h1 : cnt - cnt + 1 = 1 := by omega
    rw [h1]
    simp [extent_fill_loop, extents_total]
  | succ n ih =>
    intro e cnt tot
    by_cases hflag : lget buf (e + 25) &&& 0x80 = 0
    · have hc : extent_count_loop buf bufEnd (n+1) e cnt tot = (cnt, tot) := by
        simp only [extent_count_loop]
        rw [if_pos hflag]
      rw [hc]
      have h1 : (cnt, tot).1 - cnt + 1 = 1 := by omega
      rw [h1]
      simp [extent_fill_loop, extents_total]
    · cases hn : iso9660_next_entry buf bufEnd e with
      | none =>
        have hc : extent_count_loop buf bufEnd (n+1) e cnt tot = (cnt, tot) := by
          simp only [extent_count_loop, hn]
          rw [if_neg hflag]
        rw [hc]
        have h1 : (cnt, tot).1 - cnt + 1 = 1 := by omega
        rw [h1]
        simp [extent_fill_loop, extents_total]
      | some e2 =>
        by_cases hcap : 65536 ≤ cnt + 1
        · have hc : extent_count_loop buf bufEnd (n+1) e cnt tot =
              (cnt + 1, tot + le32 buf (e2+10)) := by
            simp only [extent_count_loop, hn]
            rw [if_neg hflag, if_pos hcap]
          rw [hc]
          have h2 : (cnt + 1, tot + le32 buf (e2+10)).1 - cnt + 1 = 2 := by omega
          rw [h2]
          simp [extent_fill_loop, hn, extents_total]
          omega
        · have hc : extent_count_loop buf bufEnd (n+1) e cnt tot =
              extent_count_loop buf bufEnd n e2 (cnt+1) (tot + le32 buf (e2+10)) := by
            simp only [extent_count_loop, hn]
            rw [if_neg hflag, if_neg hcap]
          rw [hc]
          have hge := count_ge buf bufEnd n e2 (cnt+1) (tot + le32 buf (e2+10))
          have hih := ih e2 (cnt+1) (tot + le32 buf (e2+10))
          have hk : (extent_count_loop buf bufEnd n e2 (cnt+1)
                (tot + le32 buf (e2+10))).1 - cnt + 1 =
              ((extent_count_loop buf bufEnd n e2 (cnt+1)
                (tot + le32 buf (e2+10))).1 - (cnt+1) + 1) + 1 := by omega
          rw [hk]
          simp only [extent_fill_loop, hn]
          rw [if_neg (by omega)]
          simp only [extents_total] at hih ⊢
          omega

theorem iso_read_concat (d : Disk) (v : Volume) (hpxe : v.pxe = false)
    (hnd : nondegrading d v) (hss : sector_size_ok v)
    (hfx : 1 ≤ v.fastest_xfer_size) :
    ∀ (exts : List (Nat × Nat)) (S : CacheState) (est : Nat),
      coherent d v S →
      (∀ x ∈ exts, 1 ≤ x.2 ∧ ref_read d v (x.1 * 2048) x.2 =
        some (pure_bytes d v (x.1 * 2048) x.2)) →
      ∃ S', iso9660_read d v exts S est est (extents_total exts) =
        .ok (extents_bytes d v exts) S' ∧ coherent d v S' := by
  intro exts
  induction exts with
  | nil => intro S est hco _; exact ⟨S, rfl, hco⟩
  | cons x rest ih =>
    intro S est hco hx
    obtain ⟨lba, sz⟩ := x
    have hx1 : 1 ≤ sz := (hx (lba, sz) (List.mem_cons_self _ _)).1
    have hxread := (hx (lba, sz) (List.mem_cons_self _ _)).2
    have hxr : ∀ y ∈ rest, 1 ≤ y.2 ∧ ref_read d v (y.1 * 2048) y.2 =
        some (pure_bytes d v (y.1 * 2048) y.2) :=
      fun y hy => hx y (List.mem_cons_of_mem _ hy)
    simp only [iso9660_read, extents_total, extents_bytes]
    rw [if_neg (by omega)]
    rw [if_pos (by omega)]
    simp only [if_neg (Nat.lt_irrefl est)]
    rw [Nat.add_zero, Nat.sub_zero]
    rw [show min (sz + extents_total rest) sz = sz from by omega]
    have href := volume_read_refines d v S (lba * 2048) sz hpxe hnd hss hfx hco
    have hval : (volume_read d v S (lba * 2048) sz).val =
        some (pure_bytes d v (lba * 2048) sz) := by rw [href.1, hxread]
    obtain ⟨S1, heq⟩ := vres_val_some _ _ hval
    have hco1 := href.2 _ _ heq
    simp only [heq]
    rw [show sz + extents_total rest - sz = extents_total rest from by omega]
    obtain ⟨S2, hrec, hco2⟩ := ih S1 (est + sz) hco1 hxr
    simp only [hrec]
    exact ⟨S2, rfl, hco2⟩

/-- C7: (a) for every directory buffer and matched entry, the extent list
collected by `iso9660_open` carries a total size equal to the sum of the
collected extent sizes (the two passes walk the same chain); (b) the extent
count is capped at 65 536; (c) reading the whole file — count equal to the
sum of the extent sizes — returns exactly the concatenation of the extents'
contents in list order, for every coherent starting cache on a readable,
non-degrading volume; reads simply continue across extent boundaries. -/
theorem claim_C7 :
    (∀ (buf : List Nat) (bufEnd p : Nat),
      extents_total (iso9660_collect_extents buf bufEnd p).1 =
        (iso9660_collect_extents buf bufEnd p).2) ∧
    (∀ (buf : List Nat) (bufEnd p : Nat),
      (iso9660_collect_extents buf bufEnd p).1.length ≤ 65536) ∧
    (∀ (d : Disk) (v : Volume), v.pxe = false → nondegrading d v →
      sector_size_ok v → 1 ≤ v.fastest_xfer_size →
      ∀ (exts : List (Nat × Nat)) (S : CacheState) (est : Nat),
        coherent d v S →
        (∀ x ∈ exts, 1 ≤ x.2 ∧ ref_read d v (x.1 * 2048) x.2 =
          some (pure_bytes d v (x.1 * 2048) x.2)) →
        ∃ S', iso9660_read d v exts S est est (extents_total exts) =
          .ok (extents_bytes d v exts) S' ∧ coherent d v S') := by
  refine ⟨?_, ?_, iso_read_concat⟩
  · intro buf bufEnd p
    have hge := count_ge buf bufEnd 65536 p 1 (le32 buf (p+10))
    have hag := fill_sum_agree buf bufEnd 65536 p 1 (le32 buf (p+10))
    simp only [iso9660_collect_extents]
    have h1 : (extent_count_loop buf bufEnd 65536 p 1 (le32 buf (p+10))).1 - 1 + 1 =
        (extent_count_loop buf bufEnd 65536 p 1 (le32 buf (p+10))).1 := by omega
    rw [h1] at hag
    omega
  · intro buf bufEnd p
    simp only [iso9660_collect_extents]
    rw [fill_length]
    exact count_cap buf bufEnd 65536 p 1 (le32 buf (p+10)) (by omega)

/-- C7, witness: two extents of 2 and 3 bytes at LBA 0 of the demo volume
are read back as the 5-byte concatenation of their contents. -/
theorem claim_C7_witness :
    ∃ S', iso9660_read demo_disk demo_volume [(0, 2), (0, 3)] cold_cache 0 0 5 =
      .ok [0, 1, 0, 1, 2] S' ∧ coherent demo_disk demo_volume S' :=
  claim_C7.2.2 demo_disk demo_volume rfl (fun s h => nomatch h) (Or.inl rfl)
    (by decide) [(0, 2), (0, 3)] cold_cache 0 (fun h => nomatch h)
    (by
      intro x hx
      simp only [List.mem_cons, List.not_mem_nil, or_false] at hx
      rcases hx with h | h <;> subst h <;> exact ⟨by decide, by decide⟩)

/-! ## Claim C8: path canonicalization -/

theorem gap_step_char (size fuel : Nat) (buf : Nat → Nat) (pos : Nat)
    (c : Nat) (rest : List Nat) (hc : c ≠ 47) (hfit : ¬(size - 1 ≤ pos)) :
    gap_go size (fuel+1) buf pos (c :: rest) false =
      gap_go size fuel (bset buf pos c) (pos + 1) rest false := by
  simp only [gap_go]
  rw [if_neg Bool.false_ne_true, if_neg hfit]

theorem gap_step_sep (size fuel : Nat) (buf : Nat → Nat) (pos : Nat)
    (rest : List Nat) :
    gap_go size (fuel+1) buf pos (47 :: rest) false =
      gap_go size fuel buf pos rest true := by
  simp only [gap_go]
  rw [if_neg Bool.false_ne_true]

theorem gap_step_end (size fuel : Nat) (buf : Nat → Nat) (pos : Nat) :
    gap_go size (fuel+1) buf pos [] false = gap_term buf pos := by
  simp only [gap_go]
  rw [if_neg Bool.false_ne_true]

theorem gap_step_seg (size fuel : Nat) (buf : Nat → Nat) (pos : Nat)
    (c : Nat) (cs : List Nat) (hc : c ≠ 47)
    (h1 : ¬(c :: cs = [46] ∨ c :: cs = [46, 47]))
    (h2 : ¬(c :: cs = [46, 46] ∨ c :: cs = [46, 46, 47]))
    (h3 : ¬((c :: cs).take 3 = [46, 46, 47]))
    (h4 : ¬((c :: cs).take 2 = [46, 47]))
    (hpos : pos ≠ 0) :
    gap_go size (fuel+1) buf pos (c :: cs) true =
      (if pos ≠ 1 ∧ buf (pos - 1) ≠ 47 then
        (if size - 1 ≤ pos then .failed
         else gap_go size fuel (bset buf pos 47) (pos + 1) (c :: cs) false)
       else gap_go size fuel buf pos (c :: cs) false) := by
  simp only [gap_go]
  rw [if_pos trivial]
  split
  next tail heq =>
    injection heq with hh _
    exact absurd hh hc
  next x hne =>
    rw [if_neg h1, if_neg h2, if_neg h3, if_neg h4, if_neg hpos]

theorem scan_back_le (buf : Nat → Nat) :
    ∀ pos p2, scan_back buf pos = some p2 → p2 ≤ pos := by
  intro pos
  induction pos with
  | zero =>
    intro p2 h
    simp only [scan_back] at h
    split at h
    · cases h; omega
    · cases h
  | succ p ih =>
    intro p2 h
    simp only [scan_back] at h
    split at h
    · cases h; omega
    · exact Nat.le_trans (ih p2 h) (by omega)

theorem gap_term_done (buf : Nat → Nat) (pos n : Nat) (buf' : Nat → Nat)
    (h : gap_term buf pos = .done n buf') :
    n ≤ pos ∧ ∀ j, pos < j → buf' j = buf j := by
  simp only [gap_term] at h
  split at h
  · cases h
  · split at h
    · cases h
      refine ⟨by omega, fun j hj => ?_⟩
      simp only [bset]
      rw [if_neg (by omega)]
    · cases h
      refine ⟨by omega, fun j hj => ?_⟩
      simp only [bset]
      rw [if_neg (by omega)]

theorem bsets_get (l : List Nat) : ∀ (buf : Nat → Nat) (pos j : Nat),
    bsets buf pos l j =
      if pos ≤ j ∧ j < pos + l.length then lget l (j - pos) else buf j := by
  induction l with
  | nil =>
    intro buf pos j
    simp only [bsets, List.length_nil]
    rw [if_neg (by omega)]
  | cons c cs ih =>
    intro buf pos j
    simp only [bsets, List.length_cons]
    rw [ih]
    by_cases h1 : pos + 1 ≤ j ∧ j < pos + 1 + cs.length
    · rw [if_pos h1, if_pos (by omega)]
      have hj : j - pos = (j - (pos + 1)) + 1 := by omega
      rw [hj]
      simp [lget]
    · rw [if_neg h1]
      by_cases h2 : j = pos
      · subst h2
        rw [if_pos (by omega)]
        simp [bset, lget]
      · rw [if_neg (by omega)]
        simp only [bset]
        rw [if_neg h2]

theorem map_range_eq (n : Nat) (f : Nat → Nat) (l : List Nat)
    (hlen : l.length = n) (h : ∀ j, j < n → f j = lget l j) :
    (List.range n).map f = l := by
  apply List.ext_getElem
  · simp [hlen]
  · intro i h1 h2
    simp only [List.getElem_map, List.getElem_range]
    rw [h i (by simpa using h1)]
    simp only [lget]
    rw [List.getD_eq_getElem]

theorem seg_ok_no47 (seg : List Nat) (h : seg_ok seg = true) :
    ∀ x ∈ seg, x ≠ 47 := by
  simp only [seg_ok, Bool.and_eq_true, decide_eq_true_eq, List.all_eq_true] at h
  exact h.1.1.2

theorem seg_ok_last47 (c : Nat) (cs : List Nat) (h : seg_ok (c :: cs) = true) :
    lget (c :: cs) ((c :: cs).length - 1) ≠ 47 := by
  have hmem : lget (c :: cs) ((c :: cs).length - 1) ∈ c :: cs := by
    simp only [lget]
    rw [List.getD_eq_getElem _ _ (by simp)]
    exact List.getElem_mem _
  exact seg_ok_no47 _ h _ hmem

theorem seg_not_dots (c : Nat) (cs rest' : List Nat)
    (hok : seg_ok (c :: cs) = true)
    (hrest : rest' = [] ∨ ∃ t, rest' = 47 :: t) :
    c ≠ 47 ∧
    ¬(c :: (cs ++ rest') = [46] ∨ c :: (cs ++ rest') = [46, 47]) ∧
    ¬(c :: (cs ++ rest') = [46, 46] ∨ c :: (cs ++ rest') = [46, 46, 47]) ∧
    ¬((c :: (cs ++ rest')).take 3 = [46, 46, 47]) ∧
    ¬((c :: (cs ++ rest')).take 2 = [46, 47]) := by
  simp only [seg_ok, Bool.and_eq_true, decide_eq_true_eq, List.all_eq_true] at hok
  obtain ⟨⟨⟨hne, hall⟩, h46⟩, h4646⟩ := hok
  have hc : c ≠ 47 := hall c (List.mem_cons_self c cs)
  refine ⟨hc, ?_, ?_, ?_, ?_⟩ <;>
    rcases hrest with hr | ⟨t, hr⟩ <;> subst hr <;>
    rcases cs with _ | ⟨c2, cs2⟩ <;>
    (try rcases cs2 with _ | ⟨c3, cs3⟩) <;>
    (try have h2 : c2 ≠ 47 := hall c2 (by simp)) <;>
    (try have h3 : c3 ≠ 47 := hall c3 (by simp)) <;>
    simp_all

theorem lget_append (a : List Nat) : ∀ (b : List Nat) (k : Nat),
    lget (a ++ b) k = if k < a.length then lget a k else lget b (k - a.length) := by
  induction a with
  | nil => intro b k; simp [lget]
  | cons x xs ih =>
    intro b k
    cases k with
    | zero => simp [lget]
    | succ k' =>
      simp only [List.cons_append, List.length_cons, lget, List.getD_cons_succ]
      by_cases hk : k' < xs.length
      · rw [if_pos (by omega)]
        have := ih b k'
        rw [if_pos hk] at this
        simpa [lget] using this
      · rw [if_neg (by omega)]
        have := ih b k'
        rw [if_neg hk] at this
        simp only [lget] at this
        rw [show k' + 1 - (xs.length + 1) = k' - xs.length from by omega]
        exact this

theorem gap_copy_chars (size : Nat) :
    ∀ (seg : List Nat) (buf : Nat → Nat) (pos fuel : Nat) (rest : List Nat),
      (∀ c ∈ seg, c ≠ 47) →
      pos + seg.length ≤ size - 1 →
      gap_go size (seg.length + fuel) buf pos (seg ++ rest) false =
        gap_go size fuel (bsets buf pos seg) (pos + seg.length) rest false := by
  intro seg
  induction seg with
  | nil =>
    intro buf pos fuel rest _ _
    simp [bsets]
  | cons c cs ih =>
    intro buf pos fuel rest hall hfit
    have hc : c ≠ 47 := hall c (List.mem_cons_self c cs)
    simp only [List.length_cons] at hfit
    have hlen : (c :: cs).length + fuel = (cs.length + fuel) + 1 := by
      simp only [List.length_cons]
      omega
    rw [hlen, List.cons_append,
      gap_step_char size (cs.length + fuel) buf pos c (cs ++ rest) hc (by omega)]
    rw [ih (bset buf pos c) (pos+1) fuel rest
      (fun x hx => hall x (List.mem_cons_of_mem _ hx)) (by omega)]
    have hp : pos + 1 + cs.length = pos + (c :: cs).length := by
      simp only [List.length_cons]
      omega
    rw [hp]
    rfl

theorem gap_entry (size F : Nat) (buf : Nat → Nat) (pos : Nat)
    (c : Nat) (cs rest' : List Nat)
    (hok : seg_ok (c :: cs) = true)
    (hrest : rest' = [] ∨ ∃ t, rest' = 47 :: t)
    (hslash : pos = 1 ∨ (1 < pos ∧ buf (pos - 1) ≠ 47))
    (hroom : pos + (if pos = 1 then 0 else 1) ≤ size - 2) :
    gap_go size (F+1) buf pos ((c :: cs) ++ rest') true =
      gap_go size F (if pos = 1 then buf else bset buf pos 47)
        (pos + (if pos = 1 then 0 else 1)) ((c :: cs) ++ rest') false := by
  obtain ⟨hc, hd1, hd2, hd3, hd4⟩ := seg_not_dots c cs rest' hok hrest
  rw [List.cons_append]
  rw [gap_step_seg size F buf pos c (cs ++ rest') hc hd1 hd2 hd3 hd4
    (by rcases hslash with h | h <;> omega)]
  rcases hslash with hp1 | hgt
  · rw [if_neg (by simp [hp1])]
    simp only [if_pos hp1, Nat.add_zero]
  · have hne1 : ¬pos = 1 := by omega
    rw [if_pos ⟨hne1, hgt.2⟩]
    rw [if_neg (by rw [if_neg hne1] at hroom; omega)]
    simp only [if_neg hne1]

theorem segs_join_len : ∀ (segs : List (List Nat)), segs ≠ [] →
    (∀ seg ∈ segs, seg_ok seg = true) →
    2 * segs.length ≤ (segs_join segs).length + 1 := by
  intro segs
  induction segs with
  | nil => intro h _; exact absurd rfl h
  | cons s more ih =>
    intro _ hok
    have hs : s ≠ [] := by
      intro he
      have := hok s (by simp)
      rw [he] at this
      simp [seg_ok] at this
    have hs1 : 1 ≤ s.length := List.length_pos.mpr hs
    cases more with
    | nil =>
      simp only [segs_join, List.length_cons, List.length_nil]
      omega
    | cons m ms =>
      have hih := ih (by simp) (fun x hx => hok x (by simp [hx]))
      simp only [segs_join, List.length_append, List.length_cons] at hih ⊢
      omega

theorem gap_copy_from (size : Nat) :
    ∀ (segs : List (List Nat)) (buf : Nat → Nat) (pos F : Nat),
      segs ≠ [] →
      (∀ seg ∈ segs, seg_ok seg = true) →
      1 ≤ pos →
      pos + (segs_join segs).length ≤ size - 1 →
      (segs_join segs).length + 2 * segs.length ≤ F + 1 →
      ∃ buf',
        gap_go size F buf pos (segs_join segs) false =
          .done (pos + (segs_join segs).length) buf' ∧
        (∀ j, j < pos → buf' j = buf j) ∧
        (∀ k, k < (segs_join segs).length →
          buf' (pos + k) = lget (segs_join segs) k) := by
  intro segs
  induction segs with
  | nil => intro buf pos F hne _ _ _ _; exact absurd rfl hne
  | cons seg more ih =>
    intro buf pos F _ hok hpos hroom hfuel
    have hok1 : seg_ok seg = true := hok seg (List.mem_cons_self _ _)
    obtain ⟨c, cs, rfl⟩ : ∃ c cs, seg = c :: cs := by
      cases seg with
      | nil => simp [seg_ok] at hok1
      | cons c cs => exact ⟨c, cs, rfl⟩
    have hall : ∀ x ∈ c :: cs, x ≠ 47 := seg_ok_no47 _ hok1
    have hlast := seg_ok_last47 c cs hok1
    cases more with
    | nil =>
      have hj : segs_join [c :: cs] = c :: cs := rfl
      rw [hj] at hroom hfuel ⊢
      obtain ⟨F0, rfl⟩ : ∃ F0, F = (c :: cs).length + (F0 + 1) :=
        ⟨F - (c :: cs).length - 1, by simp only [List.length_cons] at hfuel ⊢; omega⟩
      have hchars := gap_copy_chars size (c :: cs) buf pos (F0 + 1) [] hall (by omega)
      rw [List.append_nil] at hchars
      have hstrip : ¬((bsets buf pos (c :: cs)) (pos + (c :: cs).length - 1) = 47 ∧
          pos + (c :: cs).length - 1 ≠ 0) := by
        have hb := bsets_get (c :: cs) buf pos (pos + (c :: cs).length - 1)
        rw [if_pos (by simp only [List.length_cons]; omega)] at hb
        rw [hb, show pos + (c :: cs).length - 1 - pos = (c :: cs).length - 1 from
          by simp only [List.length_cons]; omega]
        intro hcontra
        exact hlast hcontra.1
      refine ⟨bset (bsets buf pos (c :: cs)) (pos + (c :: cs).length) 0, ?_, ?_, ?_⟩
      · rw [hchars, gap_step_end]
        simp only [gap_term]
        rw [if_neg (by simp only [List.length_cons]; omega)]
        simp only [if_neg hstrip]
      · intro j hj2
        simp only [bset]
        rw [if_neg (by simp only [List.length_cons]; omega), bsets_get,
          if_neg (by omega)]
      · intro k hk
        simp only [bset]
        rw [if_neg (by omega), bsets_get, if_pos (by omega),
          show pos + k - pos = k from by omega]
    | cons m ms =>
      have hj : segs_join ((c :: cs) :: m :: ms) =
          (c :: cs) ++ 47 :: segs_join (m :: ms) := rfl
      rw [hj] at hroom hfuel ⊢
      have hokm : seg_ok m = true := hok m (by simp)
      obtain ⟨c2, cs2, rfl⟩ : ∃ c2 cs2, m = c2 :: cs2 := by
        cases m with
        | nil => simp [seg_ok] at hokm
        | cons c2 cs2 => exact ⟨c2, cs2, rfl⟩
      have hmlen : 1 ≤ (segs_join ((c2 :: cs2) :: ms)).length := by
        cases ms with
        | nil => simp [segs_join]
        | cons m2 ms2 =>
          simp only [segs_join, List.length_append, List.length_cons]
          omega
      obtain ⟨F', rfl⟩ : ∃ F', F = (c :: cs).length + ((F' + 1) + 1) :=
        ⟨F - (c :: cs).length - 2, by
          simp only [List.length_append, List.length_cons] at hfuel ⊢
          omega⟩
      have hchars := gap_copy_chars size (c :: cs) buf pos ((F' + 1) + 1)
        (47 :: segs_join ((c2 :: cs2) :: ms)) hall
        (by simp only [List.length_append, List.length_cons] at hroom ⊢; omega)
      obtain ⟨rest2, hrest2, hj2⟩ :
          ∃ rest2, (rest2 = [] ∨ ∃ t, rest2 = 47 :: t) ∧
            segs_join ((c2 :: cs2) :: ms) = (c2 :: cs2) ++ rest2 := by
        cases ms with
        | nil => exact ⟨[], Or.inl rfl, by simp [segs_join]⟩
        | cons m2 ms2 => exact ⟨47 :: segs_join (m2 :: ms2), Or.inr ⟨_, rfl⟩, rfl⟩
      have hlastb : (bsets buf pos (c :: cs)) (pos + (c :: cs).length - 1) ≠ 47 := by
        have hb := bsets_get (c :: cs) buf pos (pos + (c :: cs).length - 1)
        rw [if_pos (by simp only [List.length_cons]; omega)] at hb
        rw [hb, show pos + (c :: cs).length - 1 - pos = (c :: cs).length - 1 from
          by simp only [List.length_cons]; omega]
        exact hlast
      have hne1 : ¬(pos + (c :: cs).length = 1) := by
        simp only [List.length_cons]
        omega
      have hentry := gap_entry size F' (bsets buf pos (c :: cs))
        (pos + (c :: cs).length) c2 cs2 rest2 hokm hrest2
        (Or.inr ⟨by simp only [List.length_cons]; omega, hlastb⟩)
        (by
          rw [if_neg hne1]
          simp only [List.length_append, List.length_cons] at hroom ⊢
          omega)
      obtain ⟨buf', hrun, hframe, hcontent⟩ := ih
        (bset (bsets buf pos (c :: cs)) (pos + (c :: cs).length) 47)
        (pos + (c :: cs).length + 1) F' (by simp)
        (fun x hx => hok x (by simp [hx]))
        (by omega)
        (by simp only [List.length_append, List.length_cons] at hroom ⊢; omega)
        (by simp only [List.length_append, List.length_cons] at hfuel ⊢; omega)
      have hidx : (pos + (c :: cs).length + 1) +
          (segs_join ((c2 :: cs2) :: ms)).length =
          pos + ((c :: cs) ++ 47 :: segs_join ((c2 :: cs2) :: ms)).length := by
        simp only [List.length_append, List.length_cons]
        omega
      refine ⟨buf', ?_, ?_, ?_⟩
      · rw [hchars, gap_step_sep, hj2, hentry]
        simp only [if_neg hne1]
        rw [← hj2, hrun, hidx]
      · intro j hj3
        rw [hframe j (by simp only [List.length_cons]; omega)]
        simp only [bset]
        rw [if_neg (by simp only [List.length_cons]; omega), bsets_get,
          if_neg (by omega)]
      · intro k hk
        simp only [List.length_append, List.length_cons] at hk
        rw [lget_append]
        by_cases hk1 : k < (c :: cs).length
        · rw [if_pos hk1]
          rw [hframe (pos + k) (by simp only [List.length_cons] at hk1 ⊢; omega)]
          simp only [bset]
          rw [if_neg (by simp only [List.length_cons] at hk1 ⊢; omega), bsets_get,
            if_pos (by simp only [List.length_cons] at hk1 ⊢; omega),
            show pos + k - pos = k from by omega]
        · rw [if_neg hk1]
          by_cases hk2 : k = (c :: cs).length
          · subst hk2
            rw [hframe (pos + (c :: cs).length) (by omega)]
            simp only [bset]
            rw [if_pos trivial]
            rw [show (c :: cs).length - (c :: cs).length = 0 from by omega]
            rfl
          · have hk3 : pos + k = (pos + (c :: cs).length + 1) +
                (k - (c :: cs).length - 1) := by
              simp only [List.length_cons] at hk1 hk2 ⊢
              omega
            rw [hk3, hcontent (k - (c :: cs).length - 1)
              (by simp only [List.length_cons] at hk hk1 hk2 ⊢; omega)]
            rw [show k - (c :: cs).length = (k - (c :: cs).length - 1) + 1 from by
              simp only [List.length_cons] at hk1 hk2 ⊢
              omega]
            simp only [lget, List.getD_cons_succ, Nat.add_sub_cancel]

theorem gap_copy_segs (size : Nat)
    (segs : List (List Nat)) (buf : Nat → Nat) (pos fuel : Nat)
    (hne : segs ≠ [])
    (hok : ∀ seg ∈ segs, seg_ok seg = true)
    (hslash : pos = 1 ∨ (1 < pos ∧ buf (pos - 1) ≠ 47))
    (hroom : pos + (if pos = 1 then 0 else 1) + (segs_join segs).length ≤ size - 1)
    (hfuel : (segs_join segs).length + 2 * segs.length + 1 ≤ fuel) :
    ∃ buf',
      gap_go size fuel buf pos (segs_join segs) true =
        .done (pos + (if pos = 1 then 0 else 1) + (segs_join segs).length) buf' ∧
      (∀ j, j < pos → buf' j = buf j) ∧
      (∀ k, k < (if pos = 1 then 0 else 1) + (segs_join segs).length →
        buf' (pos + k) =
          lget ((if pos = 1 then ([] : List Nat) else [47]) ++ segs_join segs) k) := by
  obtain ⟨c, cs, more, rfl⟩ : ∃ c cs more, segs = (c :: cs) :: more := by
    cases segs with
    | nil => exact absurd rfl hne
    | cons s more =>
      cases s with
      | nil =>
        have := hok [] (by simp)
        simp [seg_ok] at this
      | cons c cs => exact ⟨c, cs, more, rfl⟩
  obtain ⟨rest2, hrest2, hj2⟩ : ∃ rest2, (rest2 = [] ∨ ∃ t, rest2 = 47 :: t) ∧
      segs_join ((c :: cs) :: more) = (c :: cs) ++ rest2 := by
    cases more with
    | nil => exact ⟨[], Or.inl rfl, by simp [segs_join]⟩
    | cons m2 ms2 => exact ⟨47 :: segs_join (m2 :: ms2), Or.inr ⟨_, rfl⟩, rfl⟩
  have hlen1 : 1 ≤ (segs_join ((c :: cs) :: more)).length := by
    rw [hj2]
    simp only [List.length_append, List.length_cons]
    omega
  obtain ⟨F, rfl⟩ : ∃ F, fuel = F + 1 := ⟨fuel - 1, by omega⟩
  have hentry := gap_entry size F buf pos c cs rest2
    (hok _ (List.mem_cons_self _ _)) hrest2 hslash (by omega)
  obtain ⟨buf', hrun, hframe, hcontent⟩ := gap_copy_from size ((c :: cs) :: more)
    (if pos = 1 then buf else bset buf pos 47) (pos + (if pos = 1 then 0 else 1)) F
    (by simp) hok (by rcases hslash with h | h <;> omega) (by omega) (by omega)
  refine ⟨buf', ?_, ?_, ?_⟩
  · rw [hj2, hentry, ← hj2, hrun]
  · intro j hj3
    rw [hframe j (by omega)]
    by_cases hp1 : pos = 1
    · rw [if_pos hp1]
    · rw [if_neg hp1]
      simp only [bset]
      rw [if_neg (by omega)]
  · intro k hk
    by_cases hp1 : pos = 1
    · simp only [if_pos hp1, Nat.add_zero, Nat.zero_add, List.nil_append] at hk hcontent ⊢
      exact hcontent k hk
    · simp only [if_neg hp1] at hk hframe hcontent ⊢
      cases k with
      | zero =>
        simp only [Nat.add_zero]
        rw [hframe pos (by omega)]
        simp [bset, lget]
      | succ k' =>
        rw [lget_append,
          if_neg (show ¬(k' + 1 < List.length [47]) from by simp)]
        rw [show pos + (k' + 1) = (pos + 1) + k' from by omega,
          hcontent k' (by omega),
          show k' + 1 - List.length [47] = k' from by simp]

theorem gap_step_nil_true (size fuel : Nat) (buf : Nat → Nat) :
    gap_go size (fuel+1) buf 1 [] true = gap_go size fuel buf 1 [] false := by
  simp only [gap_go]
  rw [if_pos trivial]
  rw [if_neg (by simp), if_neg (by simp), if_neg (by simp), if_neg (by simp),
    if_neg (by omega : ¬(1 : Nat) = 0), if_neg (by simp)]

theorem canon_fixed (pwd : List Nat) (b0 : Nat → Nat) (size : Nat)
    (segs : List (List Nat)) (hok : ∀ seg ∈ segs, seg_ok seg = true)
    (hsz : (47 :: segs_join segs).length < size) :
    (get_absolute_path (47 :: segs_join segs) pwd b0 size).out =
      some (47 :: segs_join segs) := by
  have hsz0 : size ≠ 0 := by simp only [List.length_cons] at hsz; omega
  simp only [get_absolute_path]
  rw [if_neg hsz0]
  cases segs with
  | nil =>
    simp only [segs_join]
    rw [show (2 : Nat) * ([] : List Nat).length + 4 = 3 + 1 from by simp,
      gap_step_nil_true, show (3 : Nat) = 2 + 1 from rfl, gap_step_end]
    simp only [gap_term]
    rw [if_neg (by omega : ¬(1 : Nat) = 0), if_neg (by simp [bset])]
    simp only [GapOut.out]
    rw [show List.range 1 = [0] from rfl]
    simp [bset]
  | cons s more =>
    have hif1 : (if (1 : Nat) = 1 then (0 : Nat) else 1) = 0 := rfl
    obtain ⟨buf', hrun, hframe, hcontent⟩ := gap_copy_segs size (s :: more)
      (bset b0 0 47) 1 (2 * (segs_join (s :: more)).length + 4) (by simp) hok
      (Or.inl rfl)
      (by rw [hif1]; simp only [List.length_cons] at hsz; omega)
      (by
        have := segs_join_len (s :: more) (by simp) hok
        omega)
    rw [hrun]
    simp only [GapOut.out]
    refine congrArg some
      (map_range_eq (1 + (segs_join (s :: more)).length) buf' _ ?_ ?_)
    · simp only [List.length_cons]
      omega
    · intro j hj
      cases j with
      | zero =>
        rw [hframe 0 (by omega)]
        simp [bset, lget]
      | succ j' =>
        have h5 : buf' (1 + j') = lget (segs_join (s :: more)) j' :=
          hcontent j' (by omega)
        rw [show (1 : Nat) + j' = j' + 1 from by omega] at h5
        rw [h5]
        show lget (segs_join (s :: more)) j' =
          List.getD (47 :: segs_join (s :: more)) (j' + 1) 0
        rw [List.getD_cons_succ]
        rfl

theorem gap_go_bounded (size : Nat) (hsz : 2 ≤ size) :
    ∀ (fuel : Nat) (buf : Nat → Nat) (pos : Nat) (path : List Nat)
      (firstRun : Bool) (n : Nat) (buf' : Nat → Nat),
      pos ≤ size - 1 →
      gap_go size fuel buf pos path firstRun = .done n buf' →
      n ≤ size - 1 ∧ ∀ j, size ≤ j → buf' j = buf j := by
  intro fuel
  induction fuel with
  | zero =>
    intro buf pos path firstRun n buf' _ h
    simp [gap_go] at h
  | succ F ih =>
    intro buf pos path firstRun n buf' hpos h
    cases firstRun with
    | true =>
      simp only [gap_go] at h
      rw [if_pos trivial] at h
      split at h
      · exact ih buf pos _ false n buf' hpos h
      · split at h
        · obtain ⟨h1, h2⟩ := gap_term_done _ _ _ _ h
          exact ⟨by omega, fun j hj => h2 j (by omega)⟩
        · split at h
          · split at h
            · cases h
            · rename_i p2 hsb
              have hp2 := scan_back_le buf pos p2 hsb
              have hle : (if p2 = 0 then 1 else p2) ≤ size - 1 := by
                by_cases hp20 : p2 = 0
                · rw [if_pos hp20]; omega
                · rw [if_neg hp20]; omega
              obtain ⟨h1, h2⟩ := gap_term_done _ _ _ _ h
              exact ⟨by omega, fun j hj => h2 j (by omega)⟩
          · split at h
            · split at h
              · cases h
              · rename_i p2 hsb
                have hp2 := scan_back_le buf pos p2 hsb
                have hle : (if p2 = 0 then 1 else p2) ≤ size - 1 := by
                  by_cases hp20 : p2 = 0
                  · rw [if_pos hp20]; omega
                  · rw [if_neg hp20]; omega
                obtain ⟨h1, h2⟩ := ih _ _ _ _ _ _ hle h
                refine ⟨h1, fun j hj => ?_⟩
                rw [h2 j hj]
                simp only [bset]
                rw [if_neg (by omega)]
            · split at h
              · exact ih _ _ _ _ _ _ hpos h
              · split at h
                · cases h
                · split at h
                  · split at h
                    · cases h
                    · rename_i hfit
                      obtain ⟨h1, h2⟩ := ih _ _ _ _ _ _ (by omega) h
                      refine ⟨h1, fun j hj => ?_⟩
                      rw [h2 j hj]
                      simp only [bset]
                      rw [if_neg (by omega)]
                  · exact ih _ _ _ _ _ _ hpos h
    | false =>
      simp only [gap_go] at h
      rw [if_neg Bool.false_ne_true] at h
      split at h
      · obtain ⟨h1, h2⟩ := gap_term_done _ _ _ _ h
        exact ⟨by omega, fun j hj => h2 j (by omega)⟩
      · exact ih _ _ _ _ _ _ hpos h
      · split at h
        · cases h
        · rename_i hfit
          obtain ⟨h1, h2⟩ := ih _ _ _ _ _ _ (by omega) h
          refine ⟨h1, fun j hj => ?_⟩
          rw [h2 j hj]
          simp only [bset]
          rw [if_neg (by omega)]

/-- C8 (amended): (a) every canonical absolute path — `/` followed by
`/`-separated segments, none empty and none `.` or `..` — is a fixed point
of `get_absolute_path` whenever the buffer has room for it, which is the
true core of the idempotence sentence; unrestricted idempotence is refuted
by the counterexample, because successful outputs need not be canonical
(an empty path echoes `pwd` verbatim); (b) provided `size ≥ 2`, a
successful run places the terminator at an index ≤ `size − 1` and leaves
every byte at index ≥ `size` untouched; the `size = 1` counterexample
writes the terminator at index `size`. -/
theorem claim_C8 :
    (∀ (pwd : List Nat) (b0 : Nat → Nat) (size : Nat) (segs : List (List Nat)),
      (∀ seg ∈ segs, seg_ok seg = true) →
      (47 :: segs_join segs).length < size →
      (get_absolute_path (47 :: segs_join segs) pwd b0 size).out =
        some (47 :: segs_join segs)) ∧
    (∀ (path pwd : List Nat) (b0 : Nat → Nat) (size n : Nat) (buf' : Nat → Nat),
      2 ≤ size →
      get_absolute_path path pwd b0 size = .done n buf' →
      n ≤ size - 1 ∧ ∀ j, size ≤ j → buf' j = b0 j) := by
  constructor
  · exact canon_fixed
  · intro path pwd b0 size n buf' hsz h
    simp only [get_absolute_path] at h
    rw [if_neg (by omega)] at h
    split at h
    · split at h
      · cases h
      · rename_i hlen
        cases h
        refine ⟨by omega, fun j hj => ?_⟩
        simp only [bwrite]
        rw [if_neg (by
          simp only [List.length_append, List.length_cons, List.length_nil]
          omega)]
    · obtain ⟨h1, h2⟩ := gap_go_bounded size hsz _ _ _ _ _ _ _ (by omega) h
      refine ⟨h1, fun j hj => ?_⟩
      rw [h2 j hj]
      simp only [bset]
      rw [if_neg (by omega)]
    · split at h
      · cases h
      · rename_i hlen
        obtain ⟨h1, h2⟩ := gap_go_bounded size hsz _ _ _ _ _ _ _ (by omega) h
        refine ⟨h1, fun j hj => ?_⟩
        rw [h2 j hj]
        simp only [bwrite]
        rw [if_neg (by
          simp only [List.length_append, List.length_cons, List.length_nil]
          omega)]

/-- C8, counterexample: with working directory `a`, the empty path returns
`a` echoed verbatim (not canonicalized), and re-running the function on
that successful output yields `aa` — so `get_absolute_path` applied to its
own output changes it, refuting idempotence.  Separately, with `size = 1`
the absolute input `/` returns success while writing its terminator at
index 1 = `size`, past `size − 1`. -/
theorem claim_C8_counterexample :
    (get_absolute_path [] [97] (fun _ => 0) 3).out = some [97] ∧
    (get_absolute_path [97] [97] (fun _ => 0) 3).out = some [97, 97] ∧
    some [97, 97] ≠ some [97] ∧
    (get_absolute_path [47] [] (fun _ => 0) 1).endPos = some 1 :=
  ⟨by decide, by decide, by decide, by decide⟩

/-- C8, witness: the canonical absolute path `/a` is reproduced unchanged
in a 4-byte buffer. -/
theorem claim_C8_witness :
    (get_absolute_path [47, 97] [] (fun _ => 0) 4).out = some [47, 97] :=
  claim_C8.1 [] (fun _ => 0) 4 [[97]] (by decide) (by decide)

end ShadowSpec
